import Mathlib

/-!
Verification development for the bext file-system router
(src/router: matcher.ts, cache.ts, parser.ts, registry.ts, walker.ts).

The TypeScript code is shallowly embedded: JS strings become Lean strings
(compared and sliced at the character level, adequate for the ASCII data the
router handles), JS `Map` and plain objects become insertion-ordered
association lists with in-place update, `Date.now()` becomes an explicit
`now : Nat` argument threaded through every observable call, and thrown JS
errors become `Except` values.  The regular expressions the code builds are
embedded exactly: the three `replace` passes of `compileRoutePattern` are
implemented character by character with the semantics of the concrete JS
regexes they use, and the generated pattern source is interpreted by a small
backtracking engine covering precisely the constructs those sources contain
(literals, escaped literals, the group `([^/]+)`, and a trailing optional
character).
-/

namespace Bext

/-! ## JS-style maps and objects (insertion ordered, in-place update) -/

/-- `Map.get` / plain-object read: the binding for a key (keys are unique by
construction, so first-binding lookup is exact `Map` semantics). -/
def mapGet {α : Type} : List (String × α) → String → Option α
  | [], _ => none
  | p :: rest, k => if p.1 = k then some p.2 else mapGet rest k

/-- `Map.set` / `obj[k] = v`: update an existing binding in place, else append. -/
def mapSet {α : Type} : List (String × α) → String → α → List (String × α)
  | [], k, v => [(k, v)]
  | p :: rest, k, v => if p.1 = k then (k, v) :: rest else p :: mapSet rest k v

/-- `Map.delete`: remove the binding for a key. -/
def mapDelete {α : Type} : List (String × α) → String → List (String × α)
  | [], _ => []
  | p :: rest, k => if p.1 = k then rest else p :: mapDelete rest k

/-! ## Character-level string helpers (JS semantics on ASCII data) -/

/-- JS `String.prototype.startsWith`. -/
def jsStartsWith (s pre : String) : Bool :=
  pre.toList.isPrefixOf s.toList

/-- JS `String.prototype.endsWith`. -/
def jsEndsWith (s suf : String) : Bool :=
  suf.toList.isSuffixOf s.toList

/-- JS `String.prototype.slice(n)` (character based; code units coincide on ASCII). -/
def jsSliceFrom (s : String) (n : Nat) : String :=
  (s.toList.drop n).asString

/-- JS `String.prototype.toUpperCase` on the ASCII range. -/
def jsToUpper (s : String) : String :=
  (s.toList.map Char.toUpper).asString

/-- JS `String.prototype.toLowerCase` on the ASCII range. -/
def jsToLower (s : String) : String :=
  (s.toList.map Char.toLower).asString

/-- JS string length (UTF-16 units; coincides with character count on ASCII). -/
def jsLength (s : String) : Nat :=
  s.toList.length

/-! ## The pattern compiler (`compileRoutePattern`, parser.ts 360-393)

The source chains three global replaces over the route path:
1. every `/` becomes the two characters `\/`;
2. the regex `\[([^\]]+)\]` replaces each bracket segment with the eight
   characters `([^\/]+)` of the JS string literal, pushing the captured
   content onto `keys` unconditionally;
3. the regex `:([^\/]+)` (whose character class, written inside a regex
   literal, excludes only `/`) replaces each maximal `:`-led run of
   non-separator characters the same way, pushing the captured content onto
   `keys` only when not already present.
The passes are modelled as single left-to-right scans; each is equivalent to
the corresponding global regex replace because the patterns involved are
anchored at a trigger character and consume a maximal run. -/

/-- The eight characters of the replacement string literal for a capture group. -/
def groupSrc : List Char := ['(', '[', '^', '\\', '/', ']', '+', ')']

/-- Pass 1: `.replace(/\//g, '\\/')`. -/
def escSlashes : List Char → List Char
  | [] => []
  | c :: rest =>
    if c = '/' then '\\' :: '/' :: escSlashes rest
    else c :: escSlashes rest

/-- Pass 2: `.replace(/\[([^\]]+)\]/g, cb)`.  The state holds the reversed
content accumulated since an opening bracket; an unclosed or empty bracket is
emitted literally, exactly as the regex leaves it unmatched. -/
def bracketScan : List Char → Option (List Char) → List Char × List String
  | [], none => ([], [])
  | [], some buf => ('[' :: buf.reverse, [])
  | c :: rest, none =>
    if c = '[' then bracketScan rest (some [])
    else
      let r := bracketScan rest none
      (c :: r.1, r.2)
  | c :: rest, some buf =>
    if c = ']' then
      if buf.isEmpty then
        let r := bracketScan rest none
        ('[' :: ']' :: r.1, r.2)
      else
        let r := bracketScan rest none
        (groupSrc ++ r.1, buf.reverse.asString :: r.2)
    else bracketScan rest (some (c :: buf))

/-- Append a key unless already present (`if (!keys.includes(key)) keys.push(key)`). -/
def pushKeyDedup (keys : List String) (k : String) : List String :=
  if keys.contains k then keys else keys ++ [k]

/-- Pass 3: `.replace(/:([^\/]+)/g, cb)`.  The character class excludes only
`/`, so the captured run may include the backslashes introduced by pass 1.
The state holds the reversed run accumulated since a `:`. -/
def colonScan : List Char → Option (List Char) → List String → List Char × List String
  | [], none, keys => ([], keys)
  | [], some buf, keys =>
    if buf.isEmpty then ([':'], keys)
    else (groupSrc, pushKeyDedup keys buf.reverse.asString)
  | c :: rest, none, keys =>
    if c = ':' then colonScan rest (some []) keys
    else
      let r := colonScan rest none keys
      (c :: r.1, r.2)
  | c :: rest, some buf, keys =>
    if c = '/' then
      if buf.isEmpty then
        let r := colonScan rest none keys
        (':' :: '/' :: r.1, r.2)
      else
        let r := colonScan rest none (pushKeyDedup keys buf.reverse.asString)
        (groupSrc ++ '/' :: r.1, r.2)
    else colonScan rest (some (c :: buf)) keys

/-- The compiled result: the source string handed to `new RegExp`, and `keys`. -/
structure Compiled where
  src : String
  keys : List String
deriving DecidableEq

/-- `compileRoutePattern` (parser.ts 360-393).  The memoization cache is
transparent for a pure function and is not modelled.  The final template
literal produces the source `^` + pattern + `/?$`. -/
def compileRoutePattern (routePath : String) : Compiled :=
  let p1 := escSlashes routePath.toList
  let p2 := bracketScan p1 none
  let p3 := colonScan p2.1 none p2.2
  { src := ('^' :: p3.1 ++ ['/', '?', '$']).asString, keys := p3.2 }

/-! ## A regex engine for the generated pattern language

`new RegExp` sources produced by `compileRoutePattern` contain only: escaped
literal characters, plain literal characters, the capture group `([^/]+)`,
and the trailing `/?`, all wrapped in `^...$`.  `regexAst` parses exactly
that language (rejecting any other metacharacter), and `matchElems` runs the
standard backtracking search of the JS engine: groups are greedy over
non-`/` characters, longest first; the optional character is greedy. -/

/-- One element of a parsed pattern. -/
inductive RElem where
  | lit (c : Char)
  | litOpt (c : Char)
  | group
deriving DecidableEq

/-- Characters with regex meaning that may not appear as bare literals. -/
def isRegexMeta (c : Char) : Bool :=
  c = '(' || c = ')' || c = '[' || c = ']' || c = '\x7b' || c = '\x7d' ||
  c = '*' || c = '+' || c = '?' || c = '.' || c = '|' || c = '^' || c = '$' || c = '\\'

/-- Parse the pattern body before the trailing optional separator: a
sequence of capture groups, escaped literals and plain literals (`?`
quantifiers other than the generated trailing one are outside the
language). -/
def parseRegexBody : List Char → Option (List RElem)
  | [] => some []
  | c :: rest =>
    if c = '(' then
      match rest with
      | '[' :: '^' :: '\\' :: '/' :: ']' :: '+' :: ')' :: rest2 =>
        (parseRegexBody rest2).map (fun es => RElem.group :: es)
      | _ => none
    else if c = '\\' then
      match rest with
      | d :: rest2 =>
        if d.isAlphanum then none
        else (parseRegexBody rest2).map (fun es => RElem.lit d :: es)
      | [] => none
    else if isRegexMeta c then none
    else (parseRegexBody rest).map (fun es => RElem.lit c :: es)

/-- Parse a full generated source: the anchors `^...$` around a body that
always ends with the optional trailing separator `/?` the compiler
appends. -/
def regexAst (src : List Char) : Option (List RElem) :=
  match src with
  | '^' :: rest =>
    if 3 ≤ rest.length ∧ rest.drop (rest.length - 3) = ['/', '?', '$'] then
      (parseRegexBody (rest.take (rest.length - 3))).map
        (fun es => es ++ [RElem.litOpt '/'])
    else none
  | _ => none

/-- Greedy backtracking for one `([^/]+)` group: try to capture `n` leading
characters, then `n-1`, ..., then `1`; `cont` matches the remainder. -/
def tryGroup (cont : List Char → Option (List String)) (ds : List Char) : Nat → Option (List String)
  | 0 => none
  | n + 1 =>
    match cont (ds.drop (n + 1)) with
    | some caps => some ((ds.take (n + 1)).asString :: caps)
    | none => tryGroup cont ds n

/-- Anchored match of a parsed pattern against the input, returning the list
of captured groups in order (all groups participate in this language). -/
def matchElems : List RElem → List Char → Option (List String)
  | [], [] => some []
  | [], _ :: _ => none
  | RElem.lit _ :: _, [] => none
  | RElem.lit c :: es, d :: ds =>
    if d = c then matchElems es ds else none
  | RElem.litOpt _ :: es, [] => matchElems es []
  | RElem.litOpt c :: es, d :: ds =>
    if d = c then
      match matchElems es ds with
      | some caps => some caps
      | none => matchElems es (d :: ds)
    else matchElems es (d :: ds)
  | RElem.group :: es, ds =>
    tryGroup (matchElems es) ds (ds.takeWhile (fun c => c ≠ '/')).length

/-- `pathname.match(route.pattern)` restricted to the group captures
(`match[1..]`); `none` both for a failed match and for a source outside the
generated language. -/
def jsMatchCaps (patternSrc : String) (input : String) : Option (List String) :=
  match regexAst patternSrc.toList with
  | some es => matchElems es input.toList
  | none => none

/-- Number of capturing groups of a generated pattern source. -/
def numCaptureGroups (patternSrc : String) : Nat :=
  match regexAst patternSrc.toList with
  | some es => es.count RElem.group
  | none => 0

/-! ## Routes, matches and errors (types.ts, logger.ts) -/

/-- `Route` (types.ts): `pattern` is the `RegExp` source string. -/
structure Route where
  methods : List String
  path : String
  file : String
  pattern : String
  keys : List String
deriving DecidableEq

/-- `RouteMatch`: the observable content of a match — the frozen `params`
object and the file the deferred `load` closure would import. -/
structure RouteMatch where
  params : List (String × String)
  file : String
deriving DecidableEq

/-- `RouteError` (logger.ts): message and mandatory code. -/
structure RouteError where
  message : String
  code : String
deriving DecidableEq

/-- `extractParams` (matcher.ts 151-159): `keys.reduce` assigning
`params[key] = match[index + 1]` when that capture is defined. -/
def extractParams (keys : List String) (caps : List String) : List (String × String) :=
  keys.enum.foldl
    (fun params p =>
      match caps.get? p.1 with
      | some v => mapSet params p.2 v
      | none => params)
    []

/-- The `RouteMatch` built at matcher.ts 138-142. -/
def mkRouteMatch (r : Route) (caps : List String) : RouteMatch :=
  { params := extractParams r.keys caps, file := r.file }

/-! ## The route cache (cache.ts) -/

/-- `RouteCache`: entries are `(key, (match, expiresAt))` in a JS `Map`. -/
structure RouteCache where
  entries : List (String × (RouteMatch × Nat))
  defaultTtl : Nat
deriving DecidableEq

/-- `new RouteCache(options)`: `defaultTtl = options.ttl ?? 60000`. -/
def RouteCache.create (ttl : Option Nat) : RouteCache :=
  { entries := [], defaultTtl := ttl.getD 60000 }

/-- `cache.get(key)` at time `now` (cache.ts 33-43): expired entries are
deleted lazily and reported absent; the possibly mutated cache is returned. -/
def RouteCache.getAt (c : RouteCache) (key : String) (now : Nat) : Option RouteMatch × RouteCache :=
  match mapGet c.entries key with
  | none => (none, c)
  | some entry =>
    if now > entry.2 then (none, { c with entries := mapDelete c.entries key })
    else (some entry.1, c)

/-- `cache.set(key, match, ttl?)` at time `now` (cache.ts 51-54). -/
def RouteCache.setAt (c : RouteCache) (key : String) (m : RouteMatch) (ttl : Option Nat)
    (now : Nat) : RouteCache :=
  { c with entries := mapSet c.entries key (m, now + ttl.getD c.defaultTtl) }

/-- `cache.size` (cache.ts 66-68). -/
def RouteCache.size (c : RouteCache) : Nat :=
  c.entries.length

/-! ## The route matcher (matcher.ts) -/

/-- The mutable state of a `RouteMatcher` instance: the per-method route
index, the optional cache (`null` when disabled), and the path prefix. -/
structure MatcherState where
  routes : List (String × List Route)
  cache : Option RouteCache
  prefixStr : String
deriving DecidableEq

/-- The constructor (matcher.ts 21-24): cache enabled unless `cache: false`;
`prefix` defaults to the empty string. -/
def mkMatcher (cacheOpt : Option Bool) (cacheTtl : Option Nat) (prefixOpt : Option String) :
    MatcherState :=
  { routes := []
    cache := if cacheOpt ≠ some false then some (RouteCache.create cacheTtl) else none
    prefixStr := prefixOpt.getD "" }

/-- `matcher.add(route)` (matcher.ts 31-46).  In the typed model the only
falsifiable parts of the validation are the two required strings; the route
is then appended to the list of every method it declares. -/
def MatcherState.add (st : MatcherState) (r : Route) : Except RouteError MatcherState :=
  if r.path = "" || r.file = "" then
    Except.error { message := "Route is missing required properties", code := "INVALID_ROUTE" }
  else
    Except.ok { st with
      routes := r.methods.foldl
        (fun m meth => mapSet m meth ((mapGet m meth).getD [] ++ [r])) st.routes }

/-- The scan of `findMatchingRoute` (matcher.ts 134-143): first route whose
pattern matches wins. -/
def findRouteFrom : List Route → String → Option RouteMatch
  | [], _ => none
  | r :: rest, pathname =>
    match jsMatchCaps r.pattern pathname with
    | some caps => some (mkRouteMatch r caps)
    | none => findRouteFrom rest pathname

/-- `findMatchingRoute` (matcher.ts 130-146). -/
def MatcherState.findMatchingRoute (st : MatcherState) (method pathname : String) :
    Option RouteMatch :=
  match mapGet st.routes method with
  | none => none
  | some methodRoutes => findRouteFrom methodRoutes pathname

/-- `getCacheKey` (matcher.ts 109-111). -/
def getCacheKey (method pathname : String) : String :=
  method ++ ":" ++ pathname

/-- `getCachedMatch` (matcher.ts 116-118), with the lazy eviction `get`
performs folded into the returned state. -/
def MatcherState.getCachedMatch (st : MatcherState) (cacheKey : String) (now : Nat) :
    Option RouteMatch × MatcherState :=
  match st.cache with
  | none => (none, st)
  | some c =>
    let r := c.getAt cacheKey now
    (r.1, { st with cache := some r.2 })

/-- `cacheMatch` (matcher.ts 123-125). -/
def MatcherState.cacheMatch (st : MatcherState) (cacheKey : String) (m : RouteMatch)
    (now : Nat) : MatcherState :=
  match st.cache with
  | none => st
  | some c => { st with cache := some (c.setAt cacheKey m none now) }

/-- The body of `match` after validation and prefix stripping
(matcher.ts 78-95): cache probe, scan, cache fill. -/
def MatcherState.matchCore (st : MatcherState) (now : Nat)
    (normalizedMethod matchPathname : String) : Option RouteMatch × MatcherState :=
  let cacheKey := getCacheKey normalizedMethod matchPathname
  let probe := st.getCachedMatch cacheKey now
  match probe.1 with
  | some cached => (some cached, probe.2)
  | none =>
    match probe.2.findMatchingRoute normalizedMethod matchPathname with
    | none => (none, probe.2)
    | some routeMatch => (some routeMatch, probe.2.cacheMatch cacheKey routeMatch now)

/-- `matcher.match(method, pathname)` at time `now` (matcher.ts 54-96):
argument validation, method normalization, prefix stripping, then
`matchCore`.  A JS falsy check on a string argument rejects exactly the
empty string here. -/
def MatcherState.matchAt (st : MatcherState) (now : Nat) (method pathname : String) :
    Except RouteError (Option RouteMatch × MatcherState) :=
  if method = "" then
    Except.error { message := "Method must be a string", code := "INVALID_METHOD" }
  else if pathname = "" then
    Except.error { message := "Pathname must be a string", code := "INVALID_PATH" }
  else
    let normalizedMethod := jsToUpper method
    if st.prefixStr ≠ "" then
      if jsStartsWith pathname st.prefixStr then
        let stripped := jsSliceFrom pathname (jsLength st.prefixStr)
        let matchPathname :=
          if stripped ≠ "" && !(jsStartsWith stripped ("/")) then "/" ++ stripped
          else stripped
        Except.ok (st.matchCore now normalizedMethod matchPathname)
      else Except.ok (none, st)
    else Except.ok (st.matchCore now normalizedMethod pathname)

/-! ## The file-name parser (parser.ts) -/

/-- `path.extname` for the plain entry names the walker meets: the suffix
from the last dot, empty when there is no dot or the only dot leads. -/
def extnameOf (filename : String) : String :=
  let cs := filename.toList
  let revAfter := cs.reverse.takeWhile (fun c => c ≠ '.')
  if revAfter.length = cs.length then ""
  else if cs.length - revAfter.length - 1 = 0 then ""
  else ('.' :: revAfter.reverse).asString

/-- `path.basename(filename, ext)` for plain entry names. -/
def basenameOf (filename ext : String) : String :=
  if ext ≠ "" && filename ≠ ext && jsEndsWith filename ext then
    (filename.toList.take (filename.toList.length - ext.toList.length)).asString
  else filename

/-- `isRouteFile` (parser.ts 305-319): `.ts` files that are not `.d.ts`. -/
def isRouteFile (filename : String) : Bool :=
  let ext := jsToLower (extnameOf filename)
  if ext ≠ ".ts" then false
  else if jsEndsWith filename (".d.ts") then false
  else true

/-- Result of `parseFileName`. -/
structure ParsedFileName where
  name : String
  methods : List String
  isIndex : Bool
deriving DecidableEq

/-- `parseFileName` (parser.ts 324-352). -/
def parseFileName (filename : String) : ParsedFileName :=
  let ext := extnameOf filename
  let baseName := basenameOf filename ext
  if baseName = "index" then { name := "", methods := ["GET"], isIndex := true }
  else if jsStartsWith baseName ("[") && jsEndsWith baseName ("]") then
    let paramName := (baseName.toList.drop 1).dropLast.asString
    { name := "[" ++ paramName ++ "]", methods := ["GET"], isIndex := false }
  else { name := baseName, methods := ["GET"], isIndex := false }

/-- The fixed method-name probe order of `loadRouteMethods` (parser.ts 403). -/
def httpMethodNames : List String :=
  ["GET", "POST", "PUT", "DELETE", "PATCH", "HEAD", "OPTIONS"]

/-- Errors crossing the walker: node errors carry a `code` property,
`RouteError` instances carry their `code` field, a bare `new Error` has no
`code` property at all. -/
inductive JsError where
  | node (code : String) (message : String)
  | routeErr (e : RouteError)
  | plain (message : String)
deriving DecidableEq

/-- `'code' in error && error.code === 'ENOENT'`. -/
def hasCodeENOENT : JsError → Bool
  | JsError.node c _ => c = "ENOENT"
  | JsError.routeErr e => e.code = "ENOENT"
  | JsError.plain _ => false

/-- `loadRouteMethods` (parser.ts 398-425): the dynamic import is modelled by
handing in the names the module exports as functions; the result is their
intersection with the probe list, in probe order, and an error when empty. -/
def loadRouteMethods (moduleExports : List String) (filePath : String) :
    Except JsError (List String) :=
  let httpMethods := httpMethodNames.filter (fun m => moduleExports.contains m)
  if httpMethods.isEmpty then
    Except.error (JsError.plain
      ("Route file must export at least one HTTP method (GET, POST, PUT, DELETE, PATCH, HEAD, OPTIONS): "
        ++ filePath))
  else Except.ok httpMethods

/-! ## The route registry (registry.ts) -/

/-- `buildRoutePath` (registry.ts 8-18). -/
def buildRoutePath (pre name : String) (isIndex : Bool) : String :=
  if isIndex then (if pre = "" then "/" else "/" ++ pre ++ "/")
  else if jsStartsWith name ("[") && jsEndsWith name ("]") then
    (if pre ≠ "" then "/" ++ pre ++ name else "/" ++ name)
  else (if pre ≠ "" then "/" ++ pre ++ "/" ++ name else "/" ++ name)

/-- The slash-cleanup regex of registry.ts line 38,
`replace(/(?<!\[.*?)\/+(?=.*?\]|\/|$)/g, '/')`, executed character by
character on the original string: a run of separators can only be collapsed
while no `[` has occurred earlier (the negative lookbehind), and the greedy
run backtracks one character when the lookahead (a `]` somewhere ahead,
another separator next, or end of input) fails for the full run. -/
def cleanSlashesGo : Nat → Bool → List Char → List Char
  | _, _, [] => []
  | 0, _, l => l
  | fuel + 1, sawBracket, c :: rest =>
    if c = '/' then
      if sawBracket then c :: cleanSlashesGo fuel sawBracket rest
      else
        let runRest := rest.takeWhile (fun d => d = '/')
        let after := rest.drop runRest.length
        if after.contains ']' || after.isEmpty then
          '/' :: cleanSlashesGo fuel sawBracket after
        else if runRest.isEmpty then
          '/' :: cleanSlashesGo fuel sawBracket rest
        else
          '/' :: '/' :: cleanSlashesGo fuel sawBracket after
    else c :: cleanSlashesGo fuel (sawBracket || c = '[') rest

/-- The cleanup pass with adequate fuel (each step consumes a character). -/
def cleanSlashes (s : String) : String :=
  (cleanSlashesGo s.toList.length false s.toList).asString

/-- The bracket-separator regex of registry.ts line 46,
`replace(/([^/])(\[)/g, '$1/$2')`: insert a separator between a non-separator
character and a following `[`; a match consumes both characters. -/
def insertSlashBeforeBracket : List Char → List Char
  | [] => []
  | [c] => [c]
  | a :: b :: rest =>
    if a ≠ '/' && b = '[' then a :: '/' :: b :: insertSlashBeforeBracket rest
    else a :: insertSlashBeforeBracket (b :: rest)

/-- `registerRouteFile` (registry.ts 23-69): parse the name, introspect the
module, build and normalize the route path, strip the trailing separator for
the pattern, compile, and add. -/
def registerRouteFile (st : MatcherState) (filename fullPath pre : String)
    (moduleExports : List String) : Except JsError MatcherState :=
  let parsed := parseFileName filename
  match loadRouteMethods moduleExports fullPath with
  | Except.error e => Except.error e
  | Except.ok methods =>
    let routePath0 := buildRoutePath pre parsed.name parsed.isIndex
    let routePath1 := cleanSlashes routePath0
    let routePath2 := if !(jsStartsWith routePath1 ("/")) then "/" ++ routePath1 else routePath1
    let routePath := (insertSlashBeforeBracket routePath2.toList).asString
    let patternPath :=
      if jsEndsWith routePath ("/") && routePath ≠ "/" then routePath.toList.dropLast.asString
      else routePath
    let compiled := compileRoutePattern patternPath
    match st.add
        { methods := methods, path := routePath, file := fullPath,
          pattern := compiled.src, keys := compiled.keys } with
    | Except.error e => Except.error (JsError.routeErr e)
    | Except.ok st2 => Except.ok st2

/-! ## The directory walker (walker.ts) -/

/-- A directory tree: files carry the method names their module exports. -/
inductive FSEntry where
  | file (name : String) (moduleExports : List String)
  | dir (name : String) (entries : List FSEntry)

/-- Entry name. -/
def FSEntry.name : FSEntry → String
  | FSEntry.file n _ => n
  | FSEntry.dir n _ => n

/-- `entry.isDirectory()`. -/
def FSEntry.isDir : FSEntry → Bool
  | FSEntry.file _ _ => false
  | FSEntry.dir _ _ => true

/-- Strict lexicographic order on character lists (code-unit order): the
"case-sensitive lexicographic" order the walk-ordering policy text names,
kept to compare against the comparator the walker actually uses. -/
def listLexLt : List Char → List Char → Bool
  | [], [] => false
  | [], _ :: _ => true
  | _ :: _, [] => false
  | a :: as, b :: bs =>
    if a < b then true
    else if a = b then listLexLt as bs
    else false

/-- Strict lexicographic order on weight lists. -/
def listNatLt : List Nat → List Nat → Bool
  | [], [] => false
  | [], _ :: _ => true
  | _ :: _, [] => false
  | a :: as, b :: bs =>
    if a < b then true
    else if a = b then listNatLt as bs
    else false

/-- The ASCII characters on which `localeCompareM` is a faithful model of the
host collation: the period, the digits and the letters of either case. -/
def collChar (c : Char) : Bool :=
  c = '.' || c.isDigit || c.isLower || c.isUpper

/-- A name lying wholly inside the modelled collation alphabet. -/
def collName (s : String) : Bool := s.toList.all collChar

/-- Primary collation weight of a character: the period before the digits
before the letters, letters weighted by their base letter with case folded
away (so `a` and `A` share a primary weight, and `a < B` at this level).
Characters outside the modelled alphabet take a code-point fallback above
every modelled weight. -/
def primaryW (c : Char) : Nat :=
  if c = '.' then 0
  else if c.isDigit then 10 + (c.toNat - 48)
  else if c.isLower then 100 + (c.toNat - 97)
  else if c.isUpper then 100 + (c.toNat - 65)
  else 1000 + c.toNat

/-- Tertiary (case) collation weight: lower case before upper case. -/
def tertW (c : Char) : Nat := if c.isUpper then 1 else 0

/-- Primary collation key of a name. -/
def collKeyP (s : String) : List Nat := s.toList.map primaryW

/-- Tertiary collation key of a name. -/
def collKeyT (s : String) : List Nat := s.toList.map tertW

/-- Three-way comparison of collation key lists. -/
def cmpKeys (x y : List Nat) : Int :=
  if listNatLt x y then -1 else if x = y then 0 else 1

/-- Model of the host `String.prototype.localeCompare` under the default
locale (ICU root collation), the comparison walker.ts line 269 delegates to.
Whole primary key sequences are compared first and case decides only full
primary ties, so `a.ts` precedes `B.ts` (base letter `a` before `b`) even
though code-unit order puts `B` (66) before `a` (97), and `a` precedes `A`
(lower case first on a primary tie). Faithful on names over `collChar`
(periods, digits, ASCII letters — every name in this router's file trees);
names outside that alphabet fall back to code-point weights and the general
ordering theorem restricts itself to the modelled alphabet. -/
def localeCompareM (a b : String) : Int :=
  if cmpKeys (collKeyP a) (collKeyP b) = 0 then cmpKeys (collKeyT a) (collKeyT b)
  else cmpKeys (collKeyP a) (collKeyP b)

/-- The sort comparator of walker.ts 255-270: directories last, index files
first among files, otherwise `localeCompare` on names. -/
def walkCompare (a b : FSEntry) : Int :=
  if a.isDir && !b.isDir then 1
  else if !a.isDir && b.isDir then -1
  else if !a.isDir && !b.isDir
      && jsStartsWith a.name ("index.") && !(jsStartsWith b.name ("index.")) then -1
  else if !a.isDir && !b.isDir
      && !(jsStartsWith a.name ("index.")) && jsStartsWith b.name ("index.") then 1
  else localeCompareM a.name b.name

/-- `entries.sort(comparator)`: JS `Array.prototype.sort` is stable and, for
a consistent comparator, produces the unique stable order; modelled with the
stable insertion sort on the comparator's induced total preorder. -/
def sortEntries (entries : List FSEntry) : List FSEntry :=
  List.insertionSort (fun a b => walkCompare a b ≤ 0) entries

/-- `fs.readdir`: `none` stands for a missing directory, on which node
throws an error whose `code` is `ENOENT`. -/
def fsReaddir (listing : Option (List FSEntry)) (dirPath : String) :
    Except JsError (List FSEntry) :=
  match listing with
  | some entries => Except.ok entries
  | none =>
    Except.error (JsError.node "ENOENT"
      ("ENOENT: no such file or directory, scandir " ++ dirPath))

/-- `readDirectory` (matcher.ts walker section 216-233): an ENOENT from
`readdir` is rewrapped as `new Error('Directory not found: ...')` — a plain
error that carries no `code` property; everything else is rethrown. -/
def readDirectoryM (dirPath : String) (listing : Option (List FSEntry)) :
    Except JsError (List FSEntry) :=
  match fsReaddir listing dirPath with
  | Except.ok entries => Except.ok entries
  | Except.error e =>
    match e with
    | JsError.node c _ =>
      if c = "ENOENT" then Except.error (JsError.plain ("Directory not found: " ++ dirPath))
      else Except.error e
    | _ => Except.error e

/-- `walk(dir, prefix, matcher)` (walker section 238-290), fuelled by
recursion depth (any fuel above the tree depth is adequate; subdirectories
are walked from their in-tree listings, so only the root can be missing).
The catch around `readDirectory` returns silently only for an error that
still carries `code === 'ENOENT'`; the sorted entries are then registered in
order, recursing into directories with the extended prefix and propagating
any registration error. -/
def walkF : Nat → Option (List FSEntry) → String → String → MatcherState →
    Except JsError MatcherState
  | 0, _, _, _, st => Except.ok st
  | fuel + 1, listing, dir, pre, st =>
    match readDirectoryM dir listing with
    | Except.error e => if hasCodeENOENT e then Except.ok st else Except.error e
    | Except.ok entries =>
      (sortEntries entries).foldlM
        (fun st2 entry =>
          let fullPath := dir ++ "/" ++ entry.name
          match entry with
          | FSEntry.dir name subEntries =>
            walkF fuel (some subEntries) fullPath
              (if pre ≠ "" then pre ++ "/" ++ name else name) st2
          | FSEntry.file name moduleExports =>
            if isRouteFile name then registerRouteFile st2 name fullPath pre moduleExports
            else Except.ok st2)
        st

/-- A route-template segment: a literal path component or a bracket-form
dynamic component, as the registry generates them from file names. -/
inductive Seg where
  | lit (s : String)
  | dyn (s : String)

/-- Characters allowed in segment names: anything without a regex, separator,
bracket or legacy-colon role. -/
def safeChar (c : Char) : Bool :=
  !(isRegexMeta c) && c ≠ ':' && c ≠ '/'

/-- A well-formed segment: safe name characters, non-empty for a dynamic one. -/
def safeSeg : Seg → Bool
  | Seg.lit s => s.toList.all safeChar
  | Seg.dyn s => s.toList.all safeChar && !s.toList.isEmpty

/-- The template characters of one segment. -/
def segChars : Seg → List Char
  | Seg.lit s => s.toList
  | Seg.dyn s => '[' :: s.toList ++ [']']

/-- The template characters of a segment list, each segment preceded by a
separator. -/
def templateChars : List Seg → List Char
  | [] => []
  | sg :: rest => '/' :: segChars sg ++ templateChars rest

/-- The route template of a segment list, e.g. `/users/[id]`. -/
def templateOf (segs : List Seg) : String :=
  (templateChars segs).asString

/-- The dynamic-segment names in left-to-right template order. -/
def dynNames : List Seg → List String
  | [] => []
  | Seg.dyn s :: rest => s :: dynNames rest
  | Seg.lit _ :: rest => dynNames rest

/-- The slash-escaped template, as pass 1 of the compiler produces it. -/
def escTemplate : List Seg → List Char
  | [] => []
  | sg :: rest => '\\' :: '/' :: segChars sg ++ escTemplate rest

/-- The pattern characters after the bracket pass: each dynamic segment
replaced by a capture group. -/
def patChars : List Seg → List Char
  | [] => []
  | Seg.lit s :: rest => '\\' :: '/' :: s.toList ++ patChars rest
  | Seg.dyn _ :: rest => '\\' :: '/' :: groupSrc ++ patChars rest

/-- The parsed pattern elements of a compiled template body. -/
def patElems : List Seg → List RElem
  | [] => []
  | Seg.lit s :: rest => RElem.lit '/' :: s.toList.map RElem.lit ++ patElems rest
  | Seg.dyn _ :: rest => RElem.lit '/' :: RElem.group :: patElems rest

/-- Whether an entry is a plain file whose name begins with `index.` (the
distinguished class of the walk comparator). -/
def isIndexName (e : FSEntry) : Bool :=
  !e.isDir && jsStartsWith e.name ("index.")

/-- The ordering the walk comparator enforces between two distinct listed
entries: every plain file before every subdirectory; among files, `index.`
files first; entries of the same class in strict `localeCompare` collation
order on names. -/
def entryBefore (a b : FSEntry) : Prop :=
  if a.isDir then b.isDir = true ∧ localeCompareM a.name b.name < 0
  else
    b.isDir = true ∨
    (isIndexName a = true ∧ isIndexName b = false) ∨
    (isIndexName a = isIndexName b ∧ localeCompareM a.name b.name < 0)

/-- The class rank induced by the comparator: index files, then other files,
then directories. -/
def entryRank (e : FSEntry) : Nat :=
  (if e.isDir then 2 else 0) + (if isIndexName e then 0 else 1)

/-- Reflexive collation name order: a nonpositive `localeCompare`. -/
def nameLe (a b : String) : Prop := localeCompareM a b ≤ 0

/-- Sequential registration, as the walk performs it: any `add` failure stops. -/
def addAll : MatcherState → List Route → Except RouteError MatcherState
  | st, [] => Except.ok st
  | st, r :: rest =>
    match st.add r with
    | Except.error e => Except.error e
    | Except.ok st2 => addAll st2 rest

/-- The per-method route list in registration order (what the `add` loop
accumulates for routes with duplicate-free method sets). -/
def routesForMethod (rs : List Route) (meth : String) : List Route :=
  rs.filter (fun r => r.methods.contains meth)

/-- Whether a route's compiled pattern matches a path (the loop test of
`findMatchingRoute`). -/
def routeApplies (r : Route) (pathname : String) : Bool :=
  (jsMatchCaps r.pattern pathname).isSome

/-- A fresh matcher with caching enabled (TTL `ttlN`) over a given route table. -/
def freshCached (routes : List (String × List Route)) (ttlN : Nat) (pre : String) :
    MatcherState :=
  { mkMatcher none (some ttlN) (some pre) with routes := routes }

/-- A fresh matcher with caching disabled over the same route table. -/
def freshUncached (routes : List (String × List Route)) (ttlN : Nat) (pre : String) :
    MatcherState :=
  { mkMatcher (some false) (some ttlN) (some pre) with routes := routes }

/-! ## Concrete fixtures for the testable-property claims -/

/-- A matcher with all defaults. -/
def emptyMatcher : MatcherState := mkMatcher none none none

/-- The routes tree of the end-to-end property: `users/[id].ts` exporting GET. -/
def usersTree : List FSEntry := [FSEntry.dir "users" [FSEntry.file "[id].ts" ["GET"]]]

/-- The matcher produced by walking `usersTree` from an empty prefix. -/
def c3State : MatcherState :=
  match walkF 2 (some usersTree) "/app/routes" "" emptyMatcher with
  | Except.ok st => st
  | Except.error _ => emptyMatcher

/-- Static route `users/me.ts`, as the registry would build it. -/
def routeUsersMe : Route :=
  { methods := ["GET"], path := "/users/me", file := "/r/users/me.ts",
    pattern := (compileRoutePattern ("/users/me")).src,
    keys := (compileRoutePattern ("/users/me")).keys }

/-- Dynamic route `users/[id].ts`, as the registry would build it. -/
def routeUsersId : Route :=
  { methods := ["GET"], path := "/users/[id]", file := "/r/users/[id].ts",
    pattern := (compileRoutePattern ("/users/[id]")).src,
    keys := (compileRoutePattern ("/users/[id]")).keys }

/-- Route `other/thing.ts`, as the registry would build it. -/
def routeOtherThing : Route :=
  { methods := ["GET"], path := "/other/thing", file := "/r/other/thing.ts",
    pattern := (compileRoutePattern ("/other/thing")).src,
    keys := (compileRoutePattern ("/other/thing")).keys }

/-- Route `foo.ts`, as the registry would build it. -/
def routeFoo : Route :=
  { methods := ["GET"], path := "/foo", file := "/r/foo.ts",
    pattern := (compileRoutePattern ("/foo")).src,
    keys := (compileRoutePattern ("/foo")).keys }

/-- A cached route match used by cache fixtures. -/
def sampleMatch : RouteMatch := { params := [("id", "42")], file := "/r/users/[id].ts" }

/-- Register a route list onto a constructed matcher, for fixtures whose
registrations are known to succeed. -/
def matcherWith (cacheOpt : Option Bool) (cacheTtl : Option Nat) (prefixOpt : Option String)
    (rs : List Route) : MatcherState :=
  match addAll (mkMatcher cacheOpt cacheTtl prefixOpt) rs with
  | Except.ok st => st
  | Except.error _ => mkMatcher cacheOpt cacheTtl prefixOpt

/-- The walker-ordering tree: `index.ts`, `b.ts`, `a.ts` and `sub/` listed
out of order. -/
def c9Tree : List FSEntry :=
  [FSEntry.file "index.ts" ["GET"],
   FSEntry.file "b.ts" ["GET"],
   FSEntry.file "a.ts" ["GET"],
   FSEntry.dir "sub" [FSEntry.file "c.ts" ["GET"]]]

end Bext

namespace Bext

/-! ## Shared lemmas about the map primitives -/

theorem mapGet_mapSet_self {α : Type} (m : List (String × α)) (k : String) (v : α) :
    mapGet (mapSet m k v) k = some v := by
  induction m with
  | nil => simp [mapSet, mapGet]
  | cons p rest ih =>
    by_cases h : p.1 = k
    · simp [mapSet, h, mapGet]
    · simp [mapSet, h, mapGet, ih]

theorem mapGet_mapSet_ne {α : Type} (m : List (String × α)) (k k2 : String) (v : α)
    (h : k2 ≠ k) : mapGet (mapSet m k v) k2 = mapGet m k2 := by
  have h2 : k ≠ k2 := Ne.symm h
  induction m with
  | nil => simp [mapSet, mapGet, h2]
  | cons p rest ih =>
    by_cases hp : p.1 = k
    · simp [mapSet, hp, mapGet, h2]
    · simp [mapSet, hp, mapGet, ih]

theorem length_mapDelete_of_get {α : Type} (m : List (String × α)) (k : String) (v : α)
    (h : mapGet m k = some v) : (mapDelete m k).length + 1 = m.length := by
  induction m with
  | nil => simp [mapGet] at h
  | cons p rest ih =>
    by_cases hp : p.1 = k
    · simp [mapDelete, hp]
    · have h2 : mapGet rest k = some v := by simpa [mapGet, hp] using h
      simp [mapDelete, hp, ih h2]

/-! ## Claim theorems -/

/-- C2: the spec says a missing directory during the walk is a silent no-op
contributing zero routes.  The code disagrees: `readDirectory` rewraps the
ENOENT from `readdir` into a plain `Error` without a `code` property, so the
guard in `walk` that is meant to swallow ENOENT never fires and the error
propagates, aborting startup.  This theorem evaluates the walk at any
missing directory and shows the propagated error. -/
theorem c2_walk_missing_directory_throws (fuel : Nat) (dir pre : String) (st : MatcherState) :
    walkF (fuel + 1) none dir pre st =
      Except.error (JsError.plain ("Directory not found: " ++ dir)) := by
  simp [walkF, readDirectoryM, fsReaddir, hasCodeENOENT]

/-- C3: walking a tree holding `users/[id].ts` (exporting GET) under the
empty prefix registers the path `/users/[id]`; `match("GET", "/users/42")`
produces `params = [(id, 42)]` with the deferred loader aimed at that file,
and `match("POST", "/users/42")` is null because the route is only indexed
under GET. -/
theorem c3_users_id_end_to_end :
    (walkF 2 (some usersTree) "/app/routes" "" emptyMatcher).isOk = true ∧
    ((mapGet c3State.routes "GET").getD []).map Route.path = ["/users/[id]"] ∧
    (c3State.matchAt 0 "GET" "/users/42").map (fun p => p.1) =
      Except.ok (some { params := [("id", "42")], file := "/app/routes/users/[id].ts" }) ∧
    (c3State.matchAt 0 "POST" "/users/42").map (fun p => p.1) = Except.ok none :=
  ⟨rfl, rfl, rfl, rfl⟩

/-- C4: an entry stored with `ttl = 0` expires at its store time, so a `get`
once the clock has passed that instant reports absence and lazily evicts:
the cache size drops by exactly one. -/
theorem c4_ttl_zero_entry_expires (c : RouteCache) (key : String) (m : RouteMatch)
    (t t2 : Nat) (ht : t < t2) :
    ((c.setAt key m (some 0) t).getAt key t2).1 = none ∧
    ((c.setAt key m (some 0) t).getAt key t2).2.size + 1 = (c.setAt key m (some 0) t).size := by
  have hget : mapGet (c.setAt key m (some 0) t).entries key = some (m, t) := by
    simp [RouteCache.setAt]
    exact mapGet_mapSet_self c.entries key (m, t)
  refine ⟨?_, ?_⟩
  · simp [RouteCache.getAt, hget, ht]
  · simp [RouteCache.getAt, RouteCache.size, hget, ht]
    exact length_mapDelete_of_get _ key (m, t) hget

/-- Witness for C4 at a concrete cache, key and clock. -/
theorem c4_witness :
    (0 < 1) ∧
    (((RouteCache.create none).setAt "GET:/users/42" sampleMatch (some 0) 0).getAt
        "GET:/users/42" 1).1 = none ∧
    (((RouteCache.create none).setAt "GET:/users/42" sampleMatch (some 0) 0).getAt
        "GET:/users/42" 1).2.size + 1 =
      ((RouteCache.create none).setAt "GET:/users/42" sampleMatch (some 0) 0).size :=
  ⟨by decide,
   (c4_ttl_zero_entry_expires (RouteCache.create none) "GET:/users/42" sampleMatch 0 1
     (by decide)).1,
   (c4_ttl_zero_entry_expires (RouteCache.create none) "GET:/users/42" sampleMatch 0 1
     (by decide)).2⟩

/-- C6 counterexample: the template `/a/:id/:id` repeats the legacy dynamic
segment `:id`, yet its `keys` list has two entries, not one: slash escaping
runs first, and the capture class of the legacy pass excludes only `/`, so
the non-final occurrence captures `id` plus the following escape backslash
and the duplicate check compares two different strings. -/
theorem c6_counterexample :
    (compileRoutePattern ("/a/:id/:id")).keys = ["id\\", "id"] ∧
    ¬ (compileRoutePattern ("/a/:id/:id")).keys = ["id"] :=
  ⟨rfl, by decide⟩

/-- C6 amended: bracket-form repeats are never deduplicated; the legacy form
deduplicates only equal captured keys — and a non-final legacy segment
captures its name plus the escaping backslash of the following separator, so
`/a/:id/:id` keeps two distinct keys while `/a/:id/:id/x` collapses to one. -/
theorem c6_amended_dedup_behavior :
    (compileRoutePattern ("/a/[id]/[id]")).keys = ["id", "id"] ∧
    (compileRoutePattern ("/a/:id/:id")).keys = ["id\\", "id"] ∧
    (compileRoutePattern ("/a/:id/:id/x")).keys = ["id\\"] :=
  ⟨rfl, rfl, rfl⟩

/-- C7 counterexample: compiling `/a/:id/:id/x` yields a pattern with two
capturing groups but a `keys` list of length one — the legacy pass always
emits a group yet skips the duplicate key — so `keys.length` does not always
equal the number of capturing groups. -/
theorem c7_counterexample :
    numCaptureGroups (compileRoutePattern ("/a/:id/:id/x")).src = 2 ∧
    (compileRoutePattern ("/a/:id/:id/x")).keys.length = 1 :=
  ⟨rfl, rfl⟩

/-! ## String lemmas for the prefix-handling claims -/

theorem asString_toList (s : String) : s.toList.asString = s := by
  cases s
  rfl

theorem toList_append (a b : String) : (a ++ b).toList = a.toList ++ b.toList := by
  simp [String.toList, String.data_append]

theorem string_append_ne_left (a b : String) (h : a ≠ "") : a ++ b ≠ "" := by
  intro he
  apply h
  have hd : a.toList ++ b.toList = [] := by
    have hc := congrArg String.toList he
    simpa [toList_append] using hc
  have ha : a.toList = [] := (List.append_eq_nil.mp hd).1
  cases a
  simp [String.toList] at ha
  simp [ha]

theorem asString_data (s : String) : s.data.asString = s := by
  cases s
  rfl

theorem jsStartsWith_append_self (p r : String) : jsStartsWith (p ++ r) p = true := by
  simp [jsStartsWith, toList_append]

theorem jsSliceFrom_append (p r : String) : jsSliceFrom (p ++ r) (jsLength p) = r := by
  simp [jsSliceFrom, jsLength, toList_append, List.drop_left, asString_data]

/-- C8: with a non-empty configured prefix, any (valid) pathname that does
not start with that prefix yields null from `match`, before the cache or the
route table are even consulted — the state is returned untouched. -/
theorem c8_prefix_isolation (st : MatcherState) (now : Nat) (meth pathname : String)
    (hm : meth ≠ "") (hp : pathname ≠ "")
    (hpre : st.prefixStr ≠ "") (hns : jsStartsWith pathname st.prefixStr = false) :
    st.matchAt now meth pathname = Except.ok (none, st) := by
  simp [MatcherState.matchAt, hm, hp, hpre, hns]

/-- Witness for C8: a matcher with prefix `/api` and a registered route whose
pattern does match `/other/thing`; the unprefixed twin matcher does match
that pathname, the prefixed one returns null. -/
theorem c8_witness :
    ((matcherWith none none (some "/api") [routeOtherThing]).prefixStr ≠ "" ∧
      jsStartsWith "/other/thing"
        (matcherWith none none (some "/api") [routeOtherThing]).prefixStr = false) ∧
    (matcherWith none none (some "/api") [routeOtherThing]).matchAt 0 "GET" "/other/thing" =
      Except.ok (none, matcherWith none none (some "/api") [routeOtherThing]) ∧
    ((matcherWith none none none [routeOtherThing]).matchAt 0 "GET" "/other/thing").map
        (fun p => p.1) =
      Except.ok (some { params := [], file := "/r/other/thing.ts" }) :=
  ⟨⟨by decide, by decide⟩,
   c8_prefix_isolation (matcherWith none none (some "/api") [routeOtherThing]) 0 "GET"
     "/other/thing" (by decide) (by decide) (by decide) (by decide),
   rfl⟩

/-- C10: the prefix check is a plain string-prefix test, not a path-segment
test.  For any pathname of the form `prefix ++ rest` where `rest` is
non-empty and does not itself start with a separator (the mid-segment case,
e.g. prefix `/api` and pathname `/apifoo`), `match` strips exactly the
prefix, re-adds a leading separator, and proceeds to match `/rest`. -/
theorem c10_prefix_plain_string_test (st : MatcherState) (now : Nat) (meth rest : String)
    (hm : meth ≠ "") (hpre : st.prefixStr ≠ "")
    (hre : rest ≠ "") (hrs : jsStartsWith rest ("/") = false) :
    st.matchAt now meth (st.prefixStr ++ rest) =
      Except.ok (st.matchCore now (jsToUpper meth) ("/" ++ rest)) := by
  have hp : st.prefixStr ++ rest ≠ "" := string_append_ne_left _ _ hpre
  simp [MatcherState.matchAt, hm, hp, hpre, jsStartsWith_append_self, jsSliceFrom_append,
    hre, hrs]

/-- Witness for C10: prefix `/api`, pathname `/apifoo`, a route registered at
`/foo`; the pathname successfully matches that route across the mid-segment
prefix boundary. -/
theorem c10_witness :
    ((matcherWith none none (some "/api") [routeFoo]).prefixStr ≠ "" ∧
      ("foo" : String) ≠ "" ∧ jsStartsWith "foo" ("/") = false) ∧
    (matcherWith none none (some "/api") [routeFoo]).matchAt 0 "GET"
        ((matcherWith none none (some "/api") [routeFoo]).prefixStr ++ "foo") =
      Except.ok
        ((matcherWith none none (some "/api") [routeFoo]).matchCore 0 (jsToUpper "GET")
          ("/" ++ "foo")) ∧
    ((matcherWith none none (some "/api") [routeFoo]).matchCore 0 (jsToUpper "GET")
        ("/" ++ "foo")).1 = some { params := [], file := "/r/foo.ts" } :=
  ⟨⟨by decide, by decide, by decide⟩,
   c10_prefix_plain_string_test (matcherWith none none (some "/api") [routeFoo]) 0 "GET"
     "foo" (by decide) (by decide) (by decide) (by decide),
   by decide⟩

/-! ## Cache-transparency lemmas (claim C5) -/

theorem freshCached_cache (routes : List (String × List Route)) (ttlN : Nat) (pre : String) :
    (freshCached routes ttlN pre).cache = some { entries := [], defaultTtl := ttlN } := rfl

theorem freshUncached_cache (routes : List (String × List Route)) (ttlN : Nat) (pre : String) :
    (freshUncached routes ttlN pre).cache = none := rfl

/-- On a matcher whose cache is enabled but empty, the cache probe misses and
`matchCore` is the plain scan, caching a successful result under the probed
key. -/
theorem matchCore_empty_cache_spec (st : MatcherState) (ttlN : Nat)
    (hc : st.cache = some { entries := [], defaultTtl := ttlN })
    (nm mp : String) (t1 : Nat) :
    st.matchCore t1 nm mp =
      match st.findMatchingRoute nm mp with
      | none => (none, st)
      | some rm =>
        (some rm,
          { st with
            cache := some ⟨[(getCacheKey nm mp, (rm, t1 + ttlN))], ttlN⟩ }) := by
  obtain ⟨rts, cch, pfx⟩ := st
  simp only at hc
  subst hc
  cases hf : MatcherState.findMatchingRoute ⟨rts, some ⟨[], ttlN⟩, pfx⟩ nm mp with
  | none =>
    simp [MatcherState.matchCore, MatcherState.getCachedMatch, RouteCache.getAt, mapGet, hf]
  | some rm =>
    simp [MatcherState.matchCore, MatcherState.getCachedMatch, RouteCache.getAt, mapGet, hf,
      MatcherState.cacheMatch, RouteCache.setAt, mapSet]

/-- On a matcher with the cache disabled, `matchCore` is the plain scan with
no state change at all. -/
theorem matchCore_no_cache_spec (st : MatcherState) (hc : st.cache = none)
    (nm mp : String) (t1 : Nat) :
    st.matchCore t1 nm mp =
      match st.findMatchingRoute nm mp with
      | none => (none, st)
      | some rm => (some rm, st) := by
  obtain ⟨rts, cch, pfx⟩ := st
  simp only at hc
  subst hc
  cases hf : MatcherState.findMatchingRoute ⟨rts, none, pfx⟩ nm mp with
  | none =>
    simp [MatcherState.matchCore, MatcherState.getCachedMatch, hf]
  | some rm =>
    simp [MatcherState.matchCore, MatcherState.getCachedMatch, hf, MatcherState.cacheMatch]

/-- On a matcher whose cache holds exactly the probed key, unexpired,
`matchCore` answers from the cache. -/
theorem matchCore_cache_hit (st : MatcherState) (ttlN : Nat) (nm mp : String)
    (rm : RouteMatch) (exp t2 : Nat)
    (hc : st.cache = some { entries := [(getCacheKey nm mp, (rm, exp))], defaultTtl := ttlN })
    (hexp : ¬ t2 > exp) :
    (st.matchCore t2 nm mp).1 = some rm := by
  obtain ⟨rts, cch, pfx⟩ := st
  simp only at hc
  subst hc
  simp [MatcherState.matchCore, MatcherState.getCachedMatch, RouteCache.getAt, mapGet, hexp]

/-- The two fresh matchers resolve every core query identically. -/
theorem matchCore_fresh_eq_uncached (routes : List (String × List Route)) (ttlN : Nat)
    (pre : String) (nm mp : String) (t1 : Nat) :
    ((freshCached routes ttlN pre).matchCore t1 nm mp).1 =
      ((freshUncached routes ttlN pre).matchCore t1 nm mp).1 := by
  have hfind : (freshCached routes ttlN pre).findMatchingRoute nm mp =
      (freshUncached routes ttlN pre).findMatchingRoute nm mp := rfl
  rw [matchCore_empty_cache_spec (freshCached routes ttlN pre) ttlN rfl,
    matchCore_no_cache_spec (freshUncached routes ttlN pre) rfl, hfind]
  cases (freshUncached routes ttlN pre).findMatchingRoute nm mp <;> rfl

/-- A repeated core query within the TTL window returns the first answer. -/
theorem matchCore_repeat (routes : List (String × List Route)) (ttlN : Nat)
    (pre : String) (nm mp : String) (t1 t2 : Nat) (ht : t2 ≤ t1 + ttlN) :
    ((((freshCached routes ttlN pre).matchCore t1 nm mp).2).matchCore t2 nm mp).1 =
      ((freshCached routes ttlN pre).matchCore t1 nm mp).1 := by
  rw [matchCore_empty_cache_spec (freshCached routes ttlN pre) ttlN rfl]
  cases hf : (freshCached routes ttlN pre).findMatchingRoute nm mp with
  | none =>
    simp only
    rw [matchCore_empty_cache_spec (freshCached routes ttlN pre) ttlN rfl, hf]
  | some rm =>
    have hexp : ¬ t2 > t1 + ttlN := by omega
    exact matchCore_cache_hit _ ttlN nm mp rm (t1 + ttlN) t2 rfl hexp

theorem prefixStr_update_cache (st : MatcherState) (c : Option RouteCache) :
    ({ st with cache := c }).prefixStr = st.prefixStr := rfl

theorem freshCached_prefixStr (routes : List (String × List Route)) (ttlN : Nat)
    (pre : String) : (freshCached routes ttlN pre).prefixStr = pre := rfl

theorem freshUncached_prefixStr (routes : List (String × List Route)) (ttlN : Nat)
    (pre : String) : (freshUncached routes ttlN pre).prefixStr = pre := rfl

/-- `match` on valid arguments: prefix handling, then `matchCore`. -/
theorem matchAt_valid (st : MatcherState) (now : Nat) (meth pathname : String)
    (hm : meth ≠ "") (hp : pathname ≠ "") :
    st.matchAt now meth pathname =
      (if st.prefixStr ≠ "" then
        (if jsStartsWith pathname st.prefixStr then
          Except.ok (st.matchCore now (jsToUpper meth)
            (if jsSliceFrom pathname (jsLength st.prefixStr) ≠ ""
                && !(jsStartsWith (jsSliceFrom pathname (jsLength st.prefixStr)) ("/")) then
              "/" ++ jsSliceFrom pathname (jsLength st.prefixStr)
            else jsSliceFrom pathname (jsLength st.prefixStr)))
        else Except.ok (none, st))
      else Except.ok (st.matchCore now (jsToUpper meth) pathname)) := by
  simp [MatcherState.matchAt, hm, hp]

/-- C5: the cache is transparent.  For a fresh matcher over any route table,
enabling the cache does not change the result of `match`; and a second
identical `match` on the cache-enabled matcher within the TTL window returns
exactly the first result. -/
theorem c5_cache_transparent
    (routes : List (String × List Route)) (ttlN : Nat) (pre : String)
    (meth pathname : String) (t1 t2 : Nat)
    (hm : meth ≠ "") (hp : pathname ≠ "") (ht : t2 ≤ t1 + ttlN) :
    ((freshCached routes ttlN pre).matchAt t1 meth pathname).map (fun p => p.1) =
      ((freshUncached routes ttlN pre).matchAt t1 meth pathname).map (fun p => p.1) ∧
    ((freshCached routes ttlN pre).matchAt t1 meth pathname).bind
        (fun p => (p.2.matchAt t2 meth pathname).map (fun q => q.1)) =
      ((freshCached routes ttlN pre).matchAt t1 meth pathname).map (fun p => p.1) := by
  constructor
  · rw [matchAt_valid _ _ _ _ hm hp, matchAt_valid _ _ _ _ hm hp]
    simp only [freshCached_prefixStr, freshUncached_prefixStr]
    by_cases hpre : pre ≠ ""
    · simp only [if_pos hpre]
      by_cases hsw : jsStartsWith pathname pre
      · simp only [if_pos hsw, Except.map]
        rw [matchCore_fresh_eq_uncached]
      · simp only [if_neg hsw, Except.map]
    · simp only [if_neg hpre, Except.map]
      rw [matchCore_fresh_eq_uncached]
  · have hexp : ¬ t2 > t1 + ttlN := by omega
    simp only [matchAt_valid _ _ _ _ hm hp]
    simp only [freshCached_prefixStr]
    by_cases hpre : pre ≠ ""
    · by_cases hsw : jsStartsWith pathname pre
      · simp only [if_pos hpre, if_pos hsw]
        rw [matchCore_empty_cache_spec (freshCached routes ttlN pre) ttlN rfl]
        split
        · rename_i heq
          simp only [Except.bind, Except.map, freshCached_prefixStr, if_pos hpre, if_pos hsw]
          rw [matchCore_empty_cache_spec (freshCached routes ttlN pre) ttlN rfl, heq]
        · rename_i rm heq
          simp only [Except.bind, Except.map, prefixStr_update_cache, freshCached_prefixStr,
            if_pos hpre, if_pos hsw]
          exact congrArg Except.ok
            (matchCore_cache_hit _ ttlN (jsToUpper meth) _ rm (t1 + ttlN) t2 rfl hexp)
      · simp only [if_pos hpre, if_neg hsw, Except.bind, Except.map, freshCached_prefixStr]
    · simp only [if_neg hpre]
      rw [matchCore_empty_cache_spec (freshCached routes ttlN pre) ttlN rfl]
      split
      · rename_i heq
        simp only [Except.bind, Except.map, freshCached_prefixStr, if_neg hpre]
        rw [matchCore_empty_cache_spec (freshCached routes ttlN pre) ttlN rfl, heq]
      · rename_i rm heq
        simp only [Except.bind, Except.map, prefixStr_update_cache, freshCached_prefixStr,
          if_neg hpre]
        exact congrArg Except.ok
          (matchCore_cache_hit _ ttlN (jsToUpper meth) _ rm (t1 + ttlN) t2 rfl hexp)

/-- Witness for C5: a concrete dynamic-route table, queried at times 0 and
50000 with a 60000 ms TTL; both matchers agree and the repeat call returns
the identical (non-null) match. -/
theorem c5_witness :
    (("GET" : String) ≠ "" ∧ ("/users/42" : String) ≠ "" ∧ 50000 ≤ 0 + 60000) ∧
    (((freshCached [("GET", [routeUsersId])] 60000 "").matchAt 0 "GET" "/users/42").map
        (fun p => p.1) =
      ((freshUncached [("GET", [routeUsersId])] 60000 "").matchAt 0 "GET" "/users/42").map
        (fun p => p.1) ∧
     ((freshCached [("GET", [routeUsersId])] 60000 "").matchAt 0 "GET" "/users/42").bind
        (fun p => (p.2.matchAt 50000 "GET" "/users/42").map (fun q => q.1)) =
      ((freshCached [("GET", [routeUsersId])] 60000 "").matchAt 0 "GET" "/users/42").map
        (fun p => p.1)) ∧
    ((freshCached [("GET", [routeUsersId])] 60000 "").matchAt 0 "GET" "/users/42").map
        (fun p => p.1) =
      Except.ok (some { params := [("id", "42")], file := "/r/users/[id].ts" }) :=
  ⟨⟨by decide, by decide, by decide⟩,
   c5_cache_transparent [("GET", [routeUsersId])] 60000 "" "GET" "/users/42" 0 50000
     (by decide) (by decide) (by decide),
   rfl⟩

/-! ## First-match-wins lemmas (claim C1) -/

/-- The scan of `findMatchingRoute` returns the match built from the first
applicable route. -/
theorem findRouteFrom_first (l : List Route) (pathname : String) (k : Nat)
    (hk : k < l.length) (happ : routeApplies l[k] pathname = true)
    (hmin : ∀ k2 (hk2 : k2 < k), routeApplies l[k2] pathname = false) :
    ∃ caps, jsMatchCaps l[k].pattern pathname = some caps ∧
      findRouteFrom l pathname = some (mkRouteMatch l[k] caps) := by
  induction l generalizing k with
  | nil => exact absurd hk (by simp)
  | cons r rest ih =>
    cases k with
    | zero =>
      simp only [List.getElem_cons_zero] at happ ⊢
      obtain ⟨caps, hc⟩ := Option.isSome_iff_exists.mp happ
      exact ⟨caps, hc, by simp [findRouteFrom, hc]⟩
    | succ k2 =>
      have h0 : routeApplies r pathname = false := hmin 0 (Nat.succ_pos k2)
      have hnone : jsMatchCaps r.pattern pathname = none := by
        cases hcc : jsMatchCaps r.pattern pathname with
        | none => rfl
        | some c => simp [routeApplies, hcc] at h0
      have hk2 : k2 < rest.length := Nat.lt_of_succ_lt_succ hk
      simp only [List.getElem_cons_succ] at happ ⊢
      obtain ⟨caps, hc, hfind⟩ :=
        ih k2 hk2 happ (fun j hj => by
          have := hmin (j + 1) (Nat.succ_lt_succ hj)
          simpa using this)
      exact ⟨caps, hc, by simp [findRouteFrom, hnone, hfind]⟩

/-- What the `add` loop over a route's methods does to the per-method index. -/
theorem foldl_add_methods_get (ms : List String) (r : Route)
    (m0 : List (String × List Route)) (meth : String) (hnd : ms.Nodup) :
    mapGet (ms.foldl (fun m mm => mapSet m mm ((mapGet m mm).getD [] ++ [r])) m0) meth =
      if ms.contains meth then some ((mapGet m0 meth).getD [] ++ [r])
      else mapGet m0 meth := by
  induction ms generalizing m0 with
  | nil => simp
  | cons mm ms2 ih =>
    have hnotin : mm ∉ ms2 := (List.nodup_cons.mp hnd).1
    have hnd2 : ms2.Nodup := (List.nodup_cons.mp hnd).2
    simp only [List.foldl_cons]
    rw [ih _ hnd2]
    by_cases he : meth = mm
    · subst he
      have hc2 : ms2.contains meth = false := by
        simpa using hnotin
      simp [hc2, mapGet_mapSet_self, List.contains_cons, hnotin]
    · have hne : mapGet (mapSet m0 mm ((mapGet m0 mm).getD [] ++ [r])) meth = mapGet m0 meth :=
        mapGet_mapSet_ne _ _ _ _ he
      simp [hne, List.contains_cons, he]

/-- What one successful `add` does to the per-method index. -/
theorem add_get (st : MatcherState) (r : Route) (st2 : MatcherState)
    (hnd : r.methods.Nodup) (h : st.add r = Except.ok st2) (meth : String) :
    mapGet st2.routes meth =
      if r.methods.contains meth then some ((mapGet st.routes meth).getD [] ++ [r])
      else mapGet st.routes meth := by
  simp only [MatcherState.add] at h
  split at h
  · exact absurd h (by simp)
  · have h2 : st2 = { st with
        routes := r.methods.foldl
          (fun m mm => mapSet m mm ((mapGet m mm).getD [] ++ [r])) st.routes } := by
      injection h with h3
      exact h3.symm
    subst h2
    exact foldl_add_methods_get r.methods r st.routes meth hnd

/-- Registration in sequence accumulates each method's route list in
registration order. -/
theorem addAll_getD (rs : List Route) (st0 st : MatcherState)
    (hnd : ∀ r ∈ rs, r.methods.Nodup) (h : addAll st0 rs = Except.ok st) (meth : String) :
    (mapGet st.routes meth).getD [] =
      (mapGet st0.routes meth).getD [] ++ routesForMethod rs meth := by
  induction rs generalizing st0 with
  | nil =>
    simp only [addAll] at h
    injection h with h2
    subst h2
    simp [routesForMethod]
  | cons r rs2 ih =>
    simp only [addAll] at h
    cases hadd : st0.add r with
    | error e =>
      rw [hadd] at h
      simp at h
    | ok st1 =>
      rw [hadd] at h
      have hi := ih st1 (fun q hq => hnd q (List.mem_cons_of_mem r hq)) h
      have hg := add_get st0 r st1 (hnd r (List.mem_cons_self r rs2)) hadd meth
      rw [hi, hg]
      by_cases hcm : meth ∈ r.methods
      · simp [routesForMethod, List.filter_cons, hcm, List.append_assoc]
      · simp [routesForMethod, List.filter_cons, hcm]

/-- C1: first-match-wins.  For a matcher built by registering `rs` in order
(walk order), if two routes indexed for a method both apply to a stripped
path, `findMatchingRoute` returns the match built from the first applicable
route of the method's registration-order list — an index no later than the
earlier of the two, with every strictly earlier route failing to apply. -/
theorem c1_first_match_wins
    (cacheOpt : Option Bool) (cacheTtl : Option Nat) (prefixOpt : Option String)
    (rs : List Route) (st : MatcherState)
    (hnd : ∀ r ∈ rs, r.methods.Nodup)
    (hadd : addAll (mkMatcher cacheOpt cacheTtl prefixOpt) rs = Except.ok st)
    (meth pathname : String) (i j : Nat) (hij : i < j)
    (hj : j < (routesForMethod rs meth).length)
    (hi : routeApplies (routesForMethod rs meth)[i] pathname = true)
    (hjap : routeApplies (routesForMethod rs meth)[j] pathname = true) :
    ∃ (k : Nat) (hk : k < (routesForMethod rs meth).length) (caps : List String),
      k ≤ i ∧
      (∀ k2 (hk2 : k2 < k), routeApplies (routesForMethod rs meth)[k2] pathname = false) ∧
      jsMatchCaps (routesForMethod rs meth)[k].pattern pathname = some caps ∧
      st.findMatchingRoute meth pathname =
        some (mkRouteMatch (routesForMethod rs meth)[k] caps) := by
  have hil : i < (routesForMethod rs meth).length := Nat.lt_trans hij hj
  set l := routesForMethod rs meth with hl
  set p := fun r => routeApplies r pathname with hpdef
  have hex : ∃ x ∈ l, p x = true := ⟨l[i], List.getElem_mem hil, hi⟩
  have hklt : l.findIdx p < l.length := List.findIdx_lt_length_of_exists hex
  have hkapp : p l[l.findIdx p] = true := List.findIdx_getElem
  have hkle : l.findIdx p ≤ i := by
    by_contra hgt
    have hft := @List.not_of_lt_findIdx _ p l i (Nat.lt_of_not_le hgt)
    have hfalse : routeApplies (routesForMethod rs meth)[i] pathname = false := hft
    exact absurd (hi.symm.trans hfalse) (by decide)
  have hlne : l ≠ [] := by
    intro h0
    rw [h0] at hj
    simp at hj
  have hlist : mapGet st.routes meth = some l := by
    have hgd := addAll_getD rs (mkMatcher cacheOpt cacheTtl prefixOpt) st hnd hadd meth
    have hbase : mapGet (mkMatcher cacheOpt cacheTtl prefixOpt).routes meth = none := rfl
    rw [hbase] at hgd
    simp only [Option.getD_none, List.nil_append] at hgd
    cases hmg : mapGet st.routes meth with
    | none =>
      rw [hmg] at hgd
      simp only [Option.getD_none] at hgd
      exact absurd hgd.symm hlne
    | some x =>
      rw [hmg] at hgd
      simp only [Option.getD_some] at hgd
      rw [hgd]
  obtain ⟨caps, hcaps, hfind⟩ :=
    findRouteFrom_first l pathname (l.findIdx p) hklt hkapp
      (fun k2 hk2 => List.not_of_lt_findIdx hk2)
  refine ⟨l.findIdx p, hklt, caps, hkle,
    (fun k2 hk2 => List.not_of_lt_findIdx hk2), hcaps, ?_⟩
  simp only [MatcherState.findMatchingRoute, hlist]
  exact hfind

/-- Witness for C1: the static `users/me.ts` route registered before the
dynamic `users/[id].ts` route; both patterns match `/users/me`, and the scan
returns the match built from the static route. -/
theorem c1_witness :
    ((routesForMethod [routeUsersMe, routeUsersId] "GET").length = 2 ∧
      routeApplies routeUsersMe "/users/me" = true ∧
      routeApplies routeUsersId "/users/me" = true) ∧
    (∃ (k : Nat) (hk : k < (routesForMethod [routeUsersMe, routeUsersId] "GET").length)
        (caps : List String),
      k ≤ 0 ∧
      (∀ k2 (hk2 : k2 < k),
        routeApplies (routesForMethod [routeUsersMe, routeUsersId] "GET")[k2] "/users/me"
          = false) ∧
      jsMatchCaps (routesForMethod [routeUsersMe, routeUsersId] "GET")[k].pattern "/users/me"
        = some caps ∧
      (matcherWith none none none [routeUsersMe, routeUsersId]).findMatchingRoute "GET"
          "/users/me"
        = some (mkRouteMatch (routesForMethod [routeUsersMe, routeUsersId] "GET")[k] caps)) ∧
    (matcherWith none none none [routeUsersMe, routeUsersId]).findMatchingRoute "GET"
        "/users/me"
      = some { params := [], file := "/r/users/me.ts" } :=
  ⟨⟨by decide, by decide, by decide⟩,
   c1_first_match_wins none none none [routeUsersMe, routeUsersId]
     (matcherWith none none none [routeUsersMe, routeUsersId]) (by decide) rfl
     "GET" "/users/me" 0 1 (by decide) (by decide) (by decide) (by decide),
   rfl⟩

/-! ## Walk-ordering lemmas (claim C9) -/

theorem listNatLt_iff_lex (a : List Nat) :
    ∀ b, listNatLt a b = true ↔ List.Lex (fun x y => x < y) a b := by
  induction a with
  | nil =>
    intro b
    cases b with
    | nil =>
      constructor
      · intro h
        simp [listNatLt] at h
      · intro h
        exact absurd h (List.Lex.not_nil_right _ _)
    | cons c cs =>
      constructor
      · intro _
        exact List.Lex.nil
      · intro _
        simp [listNatLt]
  | cons x xs ih =>
    intro b
    cases b with
    | nil =>
      constructor
      · intro h
        simp [listNatLt] at h
      · intro h
        exact absurd h (List.Lex.not_nil_right _ _)
    | cons y ys =>
      constructor
      · intro h
        simp only [listNatLt] at h
        by_cases hxy : x < y
        · exact List.Lex.rel hxy
        · by_cases hxe : x = y
          · subst hxe
            rw [if_neg hxy, if_pos rfl] at h
            exact List.Lex.cons ((ih ys).mp h)
          · rw [if_neg hxy, if_neg hxe] at h
            exact absurd h (by simp)
      · intro h
        cases h with
        | rel h2 => simp [listNatLt, h2]
        | cons h2 =>
          simp [listNatLt, lt_self_iff_false, (ih ys).mpr h2]

theorem listNatLt_irrefl (a : List Nat) : listNatLt a a = false := by
  induction a with
  | nil => rfl
  | cons x xs ih => simp [listNatLt, ih]

theorem cmpKeys_eq_zero_iff (x y : List Nat) : cmpKeys x y = 0 ↔ x = y := by
  unfold cmpKeys
  split_ifs with h1 h2
  · constructor
    · intro h
      exact absurd h (by decide)
    · intro h
      subst h
      rw [listNatLt_irrefl] at h1
      exact absurd h1 (by decide)
  · simp [h2]
  · constructor
    · intro h
      exact absurd h (by decide)
    · intro h
      exact absurd h h2

theorem cmpKeys_le_iff (x y : List Nat) :
    cmpKeys x y ≤ 0 ↔ (listNatLt x y = true ∨ x = y) := by
  unfold cmpKeys
  split_ifs with h1 h2
  · simp [h1]
  · simp [h2]
  · constructor
    · intro h
      exact absurd h (by decide)
    · intro h
      rcases h with h | h
      · exact absurd h (by simp [h1])
      · exact absurd h h2

theorem listNatLt_trans (x y z : List Nat) (h1 : listNatLt x y = true)
    (h2 : listNatLt y z = true) : listNatLt x z = true :=
  (listNatLt_iff_lex _ _).mpr
    (IsTrans.trans _ _ _ ((listNatLt_iff_lex _ _).mp h1) ((listNatLt_iff_lex _ _).mp h2))

theorem cmpKeys_le_trans (x y z : List Nat) (h1 : cmpKeys x y ≤ 0) (h2 : cmpKeys y z ≤ 0) :
    cmpKeys x z ≤ 0 := by
  rw [cmpKeys_le_iff] at h1 h2 ⊢
  rcases h1 with h1 | h1 <;> rcases h2 with h2 | h2
  · exact Or.inl (listNatLt_trans _ _ _ h1 h2)
  · exact Or.inl (h2 ▸ h1)
  · exact Or.inl (h1 ▸ h2)
  · exact Or.inr (h1.trans h2)

theorem string_eq_of_toList_eq {a b : String} (h : a.toList = b.toList) : a = b := by
  cases a with
  | mk d1 =>
    cases b with
    | mk d2 =>
      simp only [String.toList] at h
      rw [h]

theorem lcm_total (a b : String) : localeCompareM a b ≤ 0 ∨ localeCompareM b a ≤ 0 := by
  unfold localeCompareM
  rcases trichotomous_of (List.Lex (fun x y : Nat => x < y)) (collKeyP a) (collKeyP b)
      with h | h | h
  · have hlt : listNatLt (collKeyP a) (collKeyP b) = true := (listNatLt_iff_lex _ _).mpr h
    have hm : cmpKeys (collKeyP a) (collKeyP b) = -1 := by unfold cmpKeys; rw [if_pos hlt]
    rw [hm]
    norm_num
  · have h0 : cmpKeys (collKeyP a) (collKeyP b) = 0 := (cmpKeys_eq_zero_iff _ _).mpr h
    have h0b : cmpKeys (collKeyP b) (collKeyP a) = 0 := (cmpKeys_eq_zero_iff _ _).mpr h.symm
    rw [if_pos h0, if_pos h0b]
    rcases trichotomous_of (List.Lex (fun x y : Nat => x < y)) (collKeyT a) (collKeyT b)
        with h2 | h2 | h2
    · have hlt : listNatLt (collKeyT a) (collKeyT b) = true := (listNatLt_iff_lex _ _).mpr h2
      exact Or.inl (by unfold cmpKeys; rw [if_pos hlt]; norm_num)
    · exact Or.inl (le_of_eq ((cmpKeys_eq_zero_iff _ _).mpr h2))
    · have hlt : listNatLt (collKeyT b) (collKeyT a) = true := (listNatLt_iff_lex _ _).mpr h2
      exact Or.inr (by unfold cmpKeys; rw [if_pos hlt]; norm_num)
  · have hlt : listNatLt (collKeyP b) (collKeyP a) = true := (listNatLt_iff_lex _ _).mpr h
    have hm : cmpKeys (collKeyP b) (collKeyP a) = -1 := by unfold cmpKeys; rw [if_pos hlt]
    have hne : cmpKeys (collKeyP b) (collKeyP a) ≠ 0 := by rw [hm]; decide
    rw [if_neg hne, hm]
    norm_num

theorem lcm_trans (a b c : String) (h1 : localeCompareM a b ≤ 0)
    (h2 : localeCompareM b c ≤ 0) : localeCompareM a c ≤ 0 := by
  unfold localeCompareM at h1 h2 ⊢
  by_cases hab : cmpKeys (collKeyP a) (collKeyP b) = 0 <;>
    by_cases hbc : cmpKeys (collKeyP b) (collKeyP c) = 0
  · have he1 := (cmpKeys_eq_zero_iff _ _).mp hab
    have he2 := (cmpKeys_eq_zero_iff _ _).mp hbc
    have hac : cmpKeys (collKeyP a) (collKeyP c) = 0 :=
      (cmpKeys_eq_zero_iff _ _).mpr (he1.trans he2)
    rw [if_pos hab] at h1
    rw [if_pos hbc] at h2
    rw [if_pos hac]
    exact cmpKeys_le_trans _ _ _ h1 h2
  · have he1 := (cmpKeys_eq_zero_iff _ _).mp hab
    rw [if_neg hbc] at h2
    have hac : cmpKeys (collKeyP a) (collKeyP c) ≤ 0 := he1 ▸ h2
    have hacne : cmpKeys (collKeyP a) (collKeyP c) ≠ 0 := he1 ▸ hbc
    rw [if_neg hacne]
    exact hac
  · have he2 := (cmpKeys_eq_zero_iff _ _).mp hbc
    rw [if_neg hab] at h1
    have hac : cmpKeys (collKeyP a) (collKeyP c) ≤ 0 := he2 ▸ h1
    have hacne : cmpKeys (collKeyP a) (collKeyP c) ≠ 0 := he2 ▸ hab
    rw [if_neg hacne]
    exact hac
  · rw [if_neg hab] at h1
    rw [if_neg hbc] at h2
    have hl1 : listNatLt (collKeyP a) (collKeyP b) = true := by
      rcases (cmpKeys_le_iff _ _).mp h1 with h | h
      · exact h
      · exact absurd ((cmpKeys_eq_zero_iff _ _).mpr h) hab
    have hl2 : listNatLt (collKeyP b) (collKeyP c) = true := by
      rcases (cmpKeys_le_iff _ _).mp h2 with h | h
      · exact h
      · exact absurd ((cmpKeys_eq_zero_iff _ _).mpr h) hbc
    have hl3 := listNatLt_trans _ _ _ hl1 hl2
    have hm : cmpKeys (collKeyP a) (collKeyP c) = -1 := by unfold cmpKeys; rw [if_pos hl3]
    have hne : cmpKeys (collKeyP a) (collKeyP c) ≠ 0 := by rw [hm]; decide
    rw [if_neg hne, hm]
    norm_num

theorem nameLe_total (a b : String) : nameLe a b ∨ nameLe b a := lcm_total a b

theorem nameLe_trans (a b c : String) (h1 : nameLe a b) (h2 : nameLe b c) : nameLe a c :=
  lcm_trans a b c h1 h2

theorem toNat_of_isDigit {c : Char} (h : c.isDigit = true) :
    48 ≤ c.toNat ∧ c.toNat ≤ 57 := by
  simp [Char.isDigit] at h
  exact ⟨h.1, h.2⟩

theorem toNat_of_isLower {c : Char} (h : c.isLower = true) :
    97 ≤ c.toNat ∧ c.toNat ≤ 122 := by
  simp [Char.isLower] at h
  exact ⟨h.1, h.2⟩

theorem toNat_of_isUpper {c : Char} (h : c.isUpper = true) :
    65 ≤ c.toNat ∧ c.toNat ≤ 90 := by
  simp [Char.isUpper] at h
  exact ⟨h.1, h.2⟩

theorem char_eq_of_toNat_eq {c d : Char} (h : c.toNat = d.toNat) : c = d :=
  Char.ext (UInt32.toNat.inj h)

theorem ne_dot_of_toNat {c : Char} (h : 48 ≤ c.toNat) : ¬(c = '.') := by
  intro he
  rw [he, show ('.' : Char).toNat = 46 from rfl] at h
  omega

theorem isDigit_false_of_toNat {c : Char} (h : 57 < c.toNat) : c.isDigit = false := by
  simp [Char.isDigit]
  intro h2
  exact h

theorem isLower_false_of_toNat {c : Char} (h : c.toNat ≤ 90) : c.isLower = false := by
  simp [Char.isLower]
  intro h2
  exfalso
  have h3 : 97 ≤ c.toNat := h2
  omega

theorem isUpper_false_of_gt {c : Char} (h : 90 < c.toNat) : c.isUpper = false := by
  simp [Char.isUpper]
  intro h2
  exact h

theorem primaryW_digit {c : Char} (h : c.isDigit = true) :
    primaryW c = 10 + (c.toNat - 48) := by
  have hb := toNat_of_isDigit h
  unfold primaryW
  rw [if_neg (ne_dot_of_toNat hb.1), if_pos h]

theorem primaryW_lower {c : Char} (h : c.isLower = true) :
    primaryW c = 100 + (c.toNat - 97) := by
  have hb := toNat_of_isLower h
  unfold primaryW
  rw [if_neg (ne_dot_of_toNat (by omega)),
    if_neg (by simpa using isDigit_false_of_toNat (by omega)), if_pos h]

theorem primaryW_upper {c : Char} (h : c.isUpper = true) :
    primaryW c = 100 + (c.toNat - 65) := by
  have hb := toNat_of_isUpper h
  unfold primaryW
  rw [if_neg (ne_dot_of_toNat (by omega)),
    if_neg (by simpa using isDigit_false_of_toNat (by omega)),
    if_neg (by simpa using isLower_false_of_toNat (by omega)), if_pos h]

theorem collChar_inj (c d : Char) (hc : collChar c = true) (hd : collChar d = true)
    (hp : primaryW c = primaryW d) (ht : tertW c = tertW d) : c = d := by
  simp only [collChar, Bool.or_eq_true, decide_eq_true_eq] at hc hd
  rcases hc with ((hc | hc) | hc) | hc <;> rcases hd with ((hd | hd) | hd) | hd
  · rw [hc, hd]
  · have hb := toNat_of_isDigit hd
    rw [hc, show primaryW '.' = 0 from rfl, primaryW_digit hd] at hp
    omega
  · have hb := toNat_of_isLower hd
    rw [hc, show primaryW '.' = 0 from rfl, primaryW_lower hd] at hp
    omega
  · have hb := toNat_of_isUpper hd
    rw [hc, show primaryW '.' = 0 from rfl, primaryW_upper hd] at hp
    omega
  · have hb := toNat_of_isDigit hc
    rw [hd, show primaryW '.' = 0 from rfl, primaryW_digit hc] at hp
    omega
  · have hb1 := toNat_of_isDigit hc
    have hb2 := toNat_of_isDigit hd
    rw [primaryW_digit hc, primaryW_digit hd] at hp
    exact char_eq_of_toNat_eq (by omega)
  · have hb1 := toNat_of_isDigit hc
    have hb2 := toNat_of_isLower hd
    rw [primaryW_digit hc, primaryW_lower hd] at hp
    omega
  · have hb1 := toNat_of_isDigit hc
    have hb2 := toNat_of_isUpper hd
    rw [primaryW_digit hc, primaryW_upper hd] at hp
    omega
  · have hb := toNat_of_isLower hc
    rw [hd, show primaryW '.' = 0 from rfl, primaryW_lower hc] at hp
    omega
  · have hb1 := toNat_of_isLower hc
    have hb2 := toNat_of_isDigit hd
    rw [primaryW_lower hc, primaryW_digit hd] at hp
    omega
  · have hb1 := toNat_of_isLower hc
    have hb2 := toNat_of_isLower hd
    rw [primaryW_lower hc, primaryW_lower hd] at hp
    exact char_eq_of_toNat_eq (by omega)
  · have hb1 := toNat_of_isLower hc
    have hb2 := toNat_of_isUpper hd
    have ht1 : tertW c = 0 := by
      unfold tertW
      rw [isUpper_false_of_gt (c := c) (by omega)]
      rfl
    have ht2 : tertW d = 1 := by
      unfold tertW
      rw [hd]
      rfl
    rw [ht1, ht2] at ht
    omega
  · have hb := toNat_of_isUpper hc
    rw [hd, show primaryW '.' = 0 from rfl, primaryW_upper hc] at hp
    omega
  · have hb1 := toNat_of_isUpper hc
    have hb2 := toNat_of_isDigit hd
    rw [primaryW_upper hc, primaryW_digit hd] at hp
    omega
  · have hb1 := toNat_of_isUpper hc
    have hb2 := toNat_of_isLower hd
    have ht1 : tertW c = 1 := by
      unfold tertW
      rw [hc]
      rfl
    have ht2 : tertW d = 0 := by
      unfold tertW
      rw [isUpper_false_of_gt (c := d) (by omega)]
      rfl
    rw [ht1, ht2] at ht
    omega
  · have hb1 := toNat_of_isUpper hc
    have hb2 := toNat_of_isUpper hd
    rw [primaryW_upper hc, primaryW_upper hd] at hp
    exact char_eq_of_toNat_eq (by omega)

theorem collChars_eq : ∀ (l1 l2 : List Char), l1.all collChar = true → l2.all collChar = true →
    l1.map primaryW = l2.map primaryW → l1.map tertW = l2.map tertW → l1 = l2 := by
  intro l1
  induction l1 with
  | nil =>
    intro l2 _ _ hp _
    cases l2 with
    | nil => rfl
    | cons y ys => simp at hp
  | cons x xs ih =>
    intro l2 h1 h2 hp ht
    cases l2 with
    | nil => simp at hp
    | cons y ys =>
      simp only [List.map_cons, List.cons.injEq] at hp ht
      simp only [List.all_cons, Bool.and_eq_true] at h1 h2
      rw [collChar_inj x y h1.1 h2.1 hp.1 ht.1, ih ys h1.2 h2.2 hp.2 ht.2]

theorem name_eq_of_lcm_zero (a b : String) (ha : collName a = true) (hb : collName b = true)
    (h : localeCompareM a b = 0) : a = b := by
  unfold localeCompareM at h
  by_cases hp : cmpKeys (collKeyP a) (collKeyP b) = 0
  · rw [if_pos hp] at h
    have h1 := (cmpKeys_eq_zero_iff _ _).mp hp
    have h2 := (cmpKeys_eq_zero_iff _ _).mp h
    exact string_eq_of_toList_eq (collChars_eq _ _ ha hb h1 h2)
  · rw [if_neg hp] at h
    exact absurd h hp

theorem walkCompare_nonpos_iff (a b : FSEntry) :
    walkCompare a b ≤ 0 ↔
      (entryRank a < entryRank b ∨ (entryRank a = entryRank b ∧ nameLe a.name b.name)) := by
  by_cases ha : a.isDir <;> by_cases hb : b.isDir
  · simp [walkCompare, entryRank, isIndexName, ha, hb, nameLe]
  · by_cases hib : jsStartsWith b.name ("index.") <;>
      simp [walkCompare, entryRank, isIndexName, ha, hb, hib]
  · by_cases hia : jsStartsWith a.name ("index.") <;>
      simp [walkCompare, entryRank, isIndexName, ha, hb, hia]
  · by_cases hia : jsStartsWith a.name ("index.") <;>
      by_cases hib : jsStartsWith b.name ("index.") <;>
      simp [walkCompare, entryRank, isIndexName, ha, hb, hia, hib, nameLe]

theorem walkLe_total (a b : FSEntry) : walkCompare a b ≤ 0 ∨ walkCompare b a ≤ 0 := by
  rw [walkCompare_nonpos_iff, walkCompare_nonpos_iff]
  rcases Nat.lt_trichotomy (entryRank a) (entryRank b) with h | h | h
  · exact Or.inl (Or.inl h)
  · rcases nameLe_total a.name b.name with hn | hn
    · exact Or.inl (Or.inr ⟨h, hn⟩)
    · exact Or.inr (Or.inr ⟨h.symm, hn⟩)
  · exact Or.inr (Or.inl h)

theorem walkLe_trans (a b c : FSEntry) (h1 : walkCompare a b ≤ 0) (h2 : walkCompare b c ≤ 0) :
    walkCompare a c ≤ 0 := by
  rw [walkCompare_nonpos_iff] at h1 h2 ⊢
  rcases h1 with h1 | ⟨h1e, h1n⟩ <;> rcases h2 with h2 | ⟨h2e, h2n⟩
  · exact Or.inl (by omega)
  · exact Or.inl (by omega)
  · exact Or.inl (by omega)
  · exact Or.inr ⟨by omega, nameLe_trans _ _ _ h1n h2n⟩

theorem sortEntries_pairwise_le (entries : List FSEntry) :
    (sortEntries entries).Pairwise (fun a b => walkCompare a b ≤ 0) := by
  unfold sortEntries
  letI : IsTotal FSEntry (fun a b => walkCompare a b ≤ 0) := ⟨walkLe_total⟩
  letI : IsTrans FSEntry (fun a b => walkCompare a b ≤ 0) := ⟨walkLe_trans⟩
  exact List.sorted_insertionSort _ entries

theorem le_and_ne_implies_entryBefore (a b : FSEntry)
    (hca : collName a.name = true) (hcb : collName b.name = true)
    (hne : a.name ≠ b.name) (hle : walkCompare a b ≤ 0) : entryBefore a b := by
  rw [walkCompare_nonpos_iff] at hle
  have hnlt : nameLe a.name b.name → localeCompareM a.name b.name < 0 := by
    intro h
    have h0 : localeCompareM a.name b.name ≠ 0 := fun h0 =>
      hne (name_eq_of_lcm_zero _ _ hca hcb h0)
    have h1 : localeCompareM a.name b.name ≤ 0 := h
    omega
  by_cases ha : a.isDir <;> by_cases hb : b.isDir
  · have hra : entryRank a = 3 := by simp [entryRank, isIndexName, ha]
    have hrb : entryRank b = 3 := by simp [entryRank, isIndexName, hb]
    rcases hle with h | ⟨he, hn⟩
    · omega
    · simp [entryBefore, ha, hb]
      exact hnlt hn
  · exfalso
    have hra : entryRank a = 3 := by simp [entryRank, isIndexName, ha]
    have hrb : entryRank b ≤ 1 := by
      by_cases hib : jsStartsWith b.name ("index.") <;>
        simp [entryRank, isIndexName, hb, hib]
    rcases hle with h | ⟨he, hn⟩
    · omega
    · omega
  · simp [entryBefore, ha, hb]
  · by_cases hia : jsStartsWith a.name ("index.") <;>
      by_cases hib : jsStartsWith b.name ("index.")
    · have hra : entryRank a = 0 := by simp [entryRank, isIndexName, ha, hia]
      have hrb : entryRank b = 0 := by simp [entryRank, isIndexName, hb, hib]
      rcases hle with h | ⟨he, hn⟩
      · omega
      · simp [entryBefore, ha, hb, isIndexName, hia, hib]
        exact hnlt hn
    · simp [entryBefore, ha, hb, isIndexName, hia, hib]
    · exfalso
      have hra : entryRank a = 1 := by simp [entryRank, isIndexName, ha, hia]
      have hrb : entryRank b = 0 := by simp [entryRank, isIndexName, hb, hib]
      rcases hle with h | ⟨he, hn⟩
      · omega
      · omega
    · have hra : entryRank a = 1 := by simp [entryRank, isIndexName, ha, hia]
      have hrb : entryRank b = 1 := by simp [entryRank, isIndexName, hb, hib]
      rcases hle with h | ⟨he, hn⟩
      · omega
      · simp [entryBefore, ha, hb, isIndexName, hia, hib]
        exact hnlt hn

/-- C9 counterexample: same-class ties are broken by `localeCompare`
collation, not by case-sensitive lexicographic (code-unit) name order. In a
listing of the plain files `B.ts` and `a.ts` the walk sorts `a.ts` first —
collation compares base letters, so `a` precedes `B` — although in code-unit
order `B.ts` (66) strictly precedes `a.ts` (97): the claimed order is the
reverse of the one the comparator produces on this listing. -/
theorem c9_counterexample :
    sortEntries [FSEntry.file "B.ts" ["GET"], FSEntry.file "a.ts" ["GET"]] =
      [FSEntry.file "a.ts" ["GET"], FSEntry.file "B.ts" ["GET"]] ∧
    localeCompareM "a.ts" "B.ts" = -1 ∧
    listLexLt "B.ts".toList "a.ts".toList = true :=
  ⟨rfl, by decide, by decide⟩

/-- C9 (amended): the walk processes a directory listing with all plain
files before all subdirectories and `index.`-prefixed files first among
files, but breaks same-class ties with `localeCompare` collation on names —
base character first (period before digits before case-folded letters),
lower case before upper case on full primary ties — not with case-sensitive
lexicographic code-unit order; the two orders agree on listings that do not
mix letter case. Stated in general for every listing of distinct names over
the modelled collation alphabet, and concretely: files `index.ts`, `b.ts`,
`a.ts` and subdirectory `sub/` register in the order `index.ts`, `a.ts`,
`b.ts`, then the contents of `sub/`. -/
theorem c9_amended_walk_ordering :
    (∀ entries : List FSEntry, (entries.map FSEntry.name).Nodup →
      (∀ e ∈ entries, collName e.name = true) →
      (sortEntries entries).Pairwise entryBefore) ∧
    (walkF 2 (some c9Tree) "/r" "" emptyMatcher).map
        (fun st => ((mapGet st.routes "GET").getD []).map Route.file) =
      Except.ok ["/r/index.ts", "/r/a.ts", "/r/b.ts", "/r/sub/c.ts"] := by
  constructor
  · intro entries hnd hcoll
    have hperm : (sortEntries entries).Perm entries := List.perm_insertionSort _ _
    have h1 : entries.Pairwise (fun a b => a.name ≠ b.name) := List.pairwise_map.mp hnd
    have hne : (sortEntries entries).Pairwise (fun a b => a.name ≠ b.name) :=
      (List.Perm.pairwise_iff (fun h => Ne.symm h) hperm).mpr h1
    have hle := sortEntries_pairwise_le entries
    have hmem : ∀ e ∈ sortEntries entries, collName e.name = true :=
      fun e he => hcoll e (hperm.mem_iff.mp he)
    exact List.Pairwise.imp_of_mem
      (fun ha hb hab =>
        le_and_ne_implies_entryBefore _ _ (hmem _ ha) (hmem _ hb) hab.2 hab.1)
      (hle.and hne)
  · rfl

/-- Witness for the amended C9 at the concrete listing of the claim. -/
theorem c9_amended_witness :
    (c9Tree.map FSEntry.name).Nodup ∧
    (∀ e ∈ c9Tree, collName e.name = true) ∧
    (sortEntries c9Tree).Pairwise entryBefore ∧
    (walkF 2 (some c9Tree) "/r" "" emptyMatcher).map
        (fun st => ((mapGet st.routes "GET").getD []).map Route.file) =
      Except.ok ["/r/index.ts", "/r/a.ts", "/r/b.ts", "/r/sub/c.ts"] :=
  ⟨by decide, by decide, c9_amended_walk_ordering.1 c9Tree (by decide) (by decide),
    c9_amended_walk_ordering.2⟩

/-! ## Compiler-invariant lemmas over bracket-form templates (claim C7) -/

theorem toList_asString (l : List Char) : l.asString.toList = l := rfl

theorem safeChar_spec (c : Char) (h : safeChar c = true) :
    isRegexMeta c = false ∧ c ≠ ':' ∧ c ≠ '/' := by
  simp only [safeChar, Bool.and_eq_true, Bool.not_eq_true', decide_eq_true_eq] at h
  exact ⟨h.1.1, h.1.2, h.2⟩

theorem safe_not_special (c : Char) (h : safeChar c = true) :
    c ≠ '(' ∧ c ≠ '\\' ∧ c ≠ '[' ∧ c ≠ ']' := by
  have hm := (safeChar_spec c h).1
  refine ⟨?_, ?_, ?_, ?_⟩ <;> intro he <;> rw [he] at hm <;> simp [isRegexMeta] at hm

theorem escSlashes_append (l r : List Char) :
    escSlashes (l ++ r) = escSlashes l ++ escSlashes r := by
  induction l with
  | nil => simp [escSlashes]
  | cons c l2 ih =>
    by_cases hc : c = '/'
    · simp [escSlashes, hc, ih]
    · simp [escSlashes, hc, ih]

theorem escSlashes_id (l : List Char) (h : ∀ c ∈ l, c ≠ '/') : escSlashes l = l := by
  induction l with
  | nil => rfl
  | cons c l2 ih =>
    have hc := h c (List.mem_cons_self c l2)
    simp [escSlashes, hc, ih (fun d hd => h d (List.mem_cons_of_mem c hd))]

theorem segChars_no_slash (sg : Seg) (hs : safeSeg sg = true) :
    ∀ c ∈ segChars sg, c ≠ '/' := by
  cases sg with
  | lit s =>
    intro c hc
    simp only [segChars] at hc
    have := List.all_eq_true.mp hs c hc
    exact (safeChar_spec c this).2.2
  | dyn s =>
    intro c hc
    simp only [segChars] at hc
    have hall : s.toList.all safeChar = true := by
      simp only [safeSeg, Bool.and_eq_true] at hs
      exact hs.1
    rcases List.mem_cons.mp hc with hc | hc
    · rw [hc]; decide
    rcases List.mem_append.mp hc with hc | hc
    · exact (safeChar_spec c (List.all_eq_true.mp hall c hc)).2.2
    · rw [List.mem_singleton] at hc
      rw [hc]; decide

theorem escSlashes_template (segs : List Seg) (hs : segs.all safeSeg = true) :
    escSlashes (templateChars segs) = escTemplate segs := by
  induction segs with
  | nil => rfl
  | cons sg rest ih =>
    simp only [List.all_cons, Bool.and_eq_true] at hs
    have hrest := ih hs.2
    calc escSlashes (templateChars (sg :: rest))
        = '\\' :: '/' :: escSlashes (segChars sg ++ templateChars rest) := by
          simp [templateChars, escSlashes]
      _ = '\\' :: '/' :: (escSlashes (segChars sg) ++ escSlashes (templateChars rest)) := by
          rw [escSlashes_append]
      _ = '\\' :: '/' :: (segChars sg ++ escTemplate rest) := by
          rw [escSlashes_id _ (segChars_no_slash sg hs.1), hrest]
      _ = escTemplate (sg :: rest) := by simp [escTemplate]

theorem bracketScan_transparent (l : List Char) (rest : List Char)
    (h : ∀ c ∈ l, c ≠ '[' ∧ c ≠ ']') :
    bracketScan (l ++ rest) none =
      (l ++ (bracketScan rest none).1, (bracketScan rest none).2) := by
  induction l with
  | nil => simp
  | cons c l2 ih =>
    have hc := h c (List.mem_cons_self c l2)
    have ih2 := ih (fun d hd => h d (List.mem_cons_of_mem c hd))
    simp [bracketScan, hc.1, ih2]

theorem bracketScan_inner (name : List Char) :
    ∀ (buf rest : List Char), (∀ c ∈ name, c ≠ ']') → (buf ≠ [] ∨ name ≠ []) →
    bracketScan (name ++ ']' :: rest) (some buf) =
      (groupSrc ++ (bracketScan rest none).1,
       (buf.reverse ++ name).asString :: (bracketScan rest none).2) := by
  induction name with
  | nil =>
    intro buf rest _ hne
    have hb : buf ≠ [] := by
      rcases hne with hb | hb
      · exact hb
      · exact absurd rfl hb
    have hbe : buf.isEmpty = false := by simpa [List.isEmpty_iff] using hb
    simp [bracketScan, hbe]
  | cons c name2 ih =>
    intro buf rest hn hne
    have hc : c ≠ ']' := hn c (List.mem_cons_self c name2)
    rw [List.cons_append]
    simp only [bracketScan, if_neg hc]
    rw [ih (c :: buf) rest (fun d hd => hn d (List.mem_cons_of_mem c hd))
      (Or.inl (by simp))]
    simp [List.reverse_cons, List.append_assoc]

theorem bracketScan_group (name rest : List Char) (hne : name ≠ [])
    (hn : ∀ c ∈ name, c ≠ ']') :
    bracketScan ('[' :: name ++ ']' :: rest) none =
      (groupSrc ++ (bracketScan rest none).1,
       name.asString :: (bracketScan rest none).2) := by
  have h0 : bracketScan ('[' :: name ++ ']' :: rest) none
      = bracketScan (name ++ ']' :: rest) (some []) := rfl
  rw [h0, bracketScan_inner name [] rest hn (Or.inr hne)]
  simp

theorem bracketScan_template (segs : List Seg) (hs : segs.all safeSeg = true) :
    bracketScan (escTemplate segs) none = (patChars segs, dynNames segs) := by
  induction segs with
  | nil => rfl
  | cons sg rest ih =>
    simp only [List.all_cons, Bool.and_eq_true] at hs
    have ih2 := ih hs.2
    cases sg with
    | lit s =>
      have hnb : ∀ c ∈ '\\' :: '/' :: s.toList, c ≠ '[' ∧ c ≠ ']' := by
        intro c hc
        simp only [List.mem_cons] at hc
        rcases hc with hc | hc | hc
        · rw [hc]; exact ⟨by decide, by decide⟩
        · rw [hc]; exact ⟨by decide, by decide⟩
        · have := safe_not_special c (List.all_eq_true.mp hs.1 c hc)
          exact ⟨this.2.2.1, this.2.2.2⟩
      rw [show escTemplate (Seg.lit s :: rest)
            = ('\\' :: '/' :: s.toList) ++ escTemplate rest from by
          simp [escTemplate, segChars]]
      rw [bracketScan_transparent _ _ hnb, ih2]
      simp [patChars, dynNames]
    | dyn s =>
      have hall : s.toList.all safeChar = true := by
        simp only [safeSeg, Bool.and_eq_true] at hs
        exact hs.1.1
      have hnemp : s.toList ≠ [] := by
        simp only [safeSeg, Bool.and_eq_true, Bool.not_eq_true'] at hs
        intro he
        rw [List.isEmpty_iff.mpr he] at hs
        exact absurd hs.1.2 (by simp)
      have hnr : ∀ c ∈ s.toList, c ≠ ']' := by
        intro c hc
        exact (safe_not_special c (List.all_eq_true.mp hall c hc)).2.2.2
      rw [show escTemplate (Seg.dyn s :: rest)
            = ['\\', '/'] ++ ('[' :: s.toList ++ ']' :: escTemplate rest) from by
          simp [escTemplate, segChars]]
      rw [bracketScan_transparent ['\\', '/'] _ (by decide)]
      rw [bracketScan_group s.toList (escTemplate rest) hnemp hnr, ih2]
      simp [patChars, dynNames, asString_data]

theorem colonScan_id (l : List Char) (h : ∀ c ∈ l, c ≠ ':') :
    ∀ keys, colonScan l none keys = (l, keys) := by
  induction l with
  | nil => intro keys; rfl
  | cons c l2 ih =>
    intro keys
    have hc := h c (List.mem_cons_self c l2)
    simp [colonScan, hc, ih (fun d hd => h d (List.mem_cons_of_mem c hd)) keys]

theorem groupSrc_no_colon : ∀ c ∈ groupSrc, c ≠ ':' := by decide

theorem patChars_no_colon (segs : List Seg) (hs : segs.all safeSeg = true) :
    ∀ c ∈ patChars segs, c ≠ ':' := by
  induction segs with
  | nil => intro c hc; simp [patChars] at hc
  | cons sg rest ih =>
    simp only [List.all_cons, Bool.and_eq_true] at hs
    have ih2 := ih hs.2
    cases sg with
    | lit s =>
      intro c hc
      simp only [patChars] at hc
      rcases List.mem_cons.mp hc with hc | hc
      · rw [hc]; decide
      rcases List.mem_cons.mp hc with hc | hc
      · rw [hc]; decide
      rcases List.mem_append.mp hc with hc | hc
      · exact (safeChar_spec c (List.all_eq_true.mp hs.1 c hc)).2.1
      · exact ih2 c hc
    | dyn s =>
      intro c hc
      simp only [patChars] at hc
      rcases List.mem_cons.mp hc with hc | hc
      · rw [hc]; decide
      rcases List.mem_cons.mp hc with hc | hc
      · rw [hc]; decide
      rcases List.mem_append.mp hc with hc | hc
      · exact groupSrc_no_colon c hc
      · exact ih2 c hc

theorem parse_group_chunk (rest : List Char) :
    parseRegexBody (groupSrc ++ rest) =
      (parseRegexBody rest).map (fun es => RElem.group :: es) := rfl

theorem parse_escaped_slash (rest : List Char) :
    parseRegexBody ('\\' :: '/' :: rest) =
      (parseRegexBody rest).map (fun es => RElem.lit '/' :: es) := rfl

theorem parse_safe_char (c : Char) (rest : List Char) (h : safeChar c = true) :
    parseRegexBody (c :: rest) =
      (parseRegexBody rest).map (fun es => RElem.lit c :: es) := by
  have hm := (safeChar_spec c h).1
  have hsp := safe_not_special c h
  rw [parseRegexBody.eq_def]
  simp [hsp.1, hsp.2.1, hm]

theorem parse_safe_chunk (l : List Char) (h : l.all safeChar = true) (rest : List Char) :
    parseRegexBody (l ++ rest) =
      (parseRegexBody rest).map (fun es => l.map RElem.lit ++ es) := by
  induction l with
  | nil => simp
  | cons c l2 ih =>
    simp only [List.all_cons, Bool.and_eq_true] at h
    rw [List.cons_append, parse_safe_char c _ h.1, ih h.2]
    cases parseRegexBody rest <;> rfl

theorem parse_patChars (segs : List Seg) (hs : segs.all safeSeg = true) :
    parseRegexBody (patChars segs) = some (patElems segs) := by
  induction segs with
  | nil => rfl
  | cons sg rest ih =>
    simp only [List.all_cons, Bool.and_eq_true] at hs
    have ih2 := ih hs.2
    cases sg with
    | lit s =>
      rw [show patChars (Seg.lit s :: rest) = '\\' :: '/' :: (s.toList ++ patChars rest)
          from by simp [patChars]]
      rw [parse_escaped_slash, parse_safe_chunk s.toList hs.1 (patChars rest), ih2]
      simp [patElems]
    | dyn s =>
      rw [show patChars (Seg.dyn s :: rest) = '\\' :: '/' :: (groupSrc ++ patChars rest)
          from by simp [patChars]]
      rw [parse_escaped_slash, parse_group_chunk, ih2]
      simp [patElems]

theorem count_group_patElems (segs : List Seg) :
    (patElems segs).count RElem.group = (dynNames segs).length := by
  induction segs with
  | nil => rfl
  | cons sg rest ih =>
    cases sg with
    | lit s =>
      have hz : (List.map RElem.lit s.data).count RElem.group = 0 := by
        rw [List.count_eq_zero]
        simp
      simp [patElems, dynNames, List.count_cons, List.count_append, hz, ih]
    | dyn s =>
      simp [patElems, dynNames, List.count_cons, ih]

/-- C7 amended: over templates built from literal and bracket-form dynamic
segments on the path alphabet — exactly the templates the file-based
registry generates — `keys` lists the dynamic-segment names in
left-to-right template order and its length equals the number of capturing
groups of the compiled pattern.  (The original claim fails for duplicated
legacy `:name` segments, see the counterexample.) -/
theorem c7_amended_bracket_invariant (segs : List Seg) (hs : segs.all safeSeg = true) :
    (compileRoutePattern (templateOf segs)).keys = dynNames segs ∧
    numCaptureGroups (compileRoutePattern (templateOf segs)).src =
      (compileRoutePattern (templateOf segs)).keys.length := by
  have h1 : escSlashes (templateOf segs).data = escTemplate segs := by
    rw [show (templateOf segs).data = templateChars segs from rfl]
    exact escSlashes_template segs hs
  have h2 := bracketScan_template segs hs
  have h3 : colonScan (patChars segs) none (dynNames segs) = (patChars segs, dynNames segs) :=
    colonScan_id _ (patChars_no_colon segs hs) _
  have hcomp : compileRoutePattern (templateOf segs) =
      { src := ('^' :: patChars segs ++ ['/', '?', '$']).asString,
        keys := dynNames segs } := by
    simp [compileRoutePattern, h1, h2, h3]
  refine ⟨by rw [hcomp], ?_⟩
  rw [hcomp]
  simp only [numCaptureGroups]
  rw [show (('^' :: patChars segs ++ ['/', '?', '$']).asString).toList
      = '^' :: (patChars segs ++ ['/', '?', '$']) from toList_asString _]
  have hlen : (patChars segs ++ ['/', '?', '$']).length = (patChars segs).length + 3 := by
    simp
  have hcond : 3 ≤ (patChars segs ++ ['/', '?', '$']).length ∧
      (patChars segs ++ ['/', '?', '$']).drop
        ((patChars segs ++ ['/', '?', '$']).length - 3) = ['/', '?', '$'] := by
    constructor
    · rw [hlen]; omega
    · rw [hlen, Nat.add_sub_cancel]
      exact List.drop_left _ _
  simp only [regexAst]
  rw [if_pos hcond]
  rw [show (patChars segs ++ ['/', '?', '$']).take
        ((patChars segs ++ ['/', '?', '$']).length - 3) = patChars segs from by
      rw [hlen, Nat.add_sub_cancel]
      exact List.take_left _ _]
  rw [parse_patChars segs hs]
  rw [show (some (patElems segs)).map (fun es => es ++ [RElem.litOpt '/'])
      = some (patElems segs ++ [RElem.litOpt '/']) from rfl]
  show List.count RElem.group (patElems segs ++ [RElem.litOpt '/']) = (dynNames segs).length
  rw [List.count_append, count_group_patElems]
  have hco : List.count RElem.group [RElem.litOpt '/'] = 0 := by decide
  rw [hco]
  omega

/-- Witness for C7 amended at the template `/users/[id]`. -/
theorem c7_amended_witness :
    ([Seg.lit ("users"), Seg.dyn ("id")].all safeSeg = true) ∧
    (compileRoutePattern (templateOf [Seg.lit ("users"), Seg.dyn ("id")])).keys =
      dynNames [Seg.lit ("users"), Seg.dyn ("id")] ∧
    numCaptureGroups (compileRoutePattern (templateOf [Seg.lit ("users"), Seg.dyn ("id")])).src =
      (compileRoutePattern (templateOf [Seg.lit ("users"), Seg.dyn ("id")])).keys.length :=
  ⟨by decide,
   (c7_amended_bracket_invariant [Seg.lit ("users"), Seg.dyn ("id")] (by decide)).1,
   (c7_amended_bracket_invariant [Seg.lit ("users"), Seg.dyn ("id")] (by decide)).2⟩

end Bext
